import Mathlib

/-!
Verification of the myplan local-first data core.

This file gives a shallow embedding, in Lean 4, of the data core of the
myplan habit/todo tracker (persistence engine, cache/store layer,
statistics engine, notification delivery filter) and proves or refutes
the specification claims about it.

Modelling conventions:
* JavaScript numbers are modelled as integers: every numeric value the
  modelled operations manipulate (targets, log values, totals, minute
  offsets) is integral, and the arithmetic the embedded code uses on
  them (comparison, min, max, addition, subtraction) is exact there.
* Calendar dates are modelled as integer day numbers counted from a
  Sunday epoch, so the weekday of day `d` is `d mod 7` with `0` =
  Sunday, matching the JS `getDay` convention.  A `yyyy-MM-dd` date key
  is represented by the day number itself.
* Timestamps in milliseconds are modelled as integers.
* Asynchronous awaited sub-effects (the durable write, the scheduler
  call) are passed to the embedded operation as explicit outcome
  parameters; fire-and-forget refetches scheduled after the awaited
  write (InteractionManager.runAfterInteractions) are not part of the
  awaited operation and are omitted.
-/

namespace MyPlan

/-- JS truthiness fallback `x || d` on numbers: `0` is falsy. -/
def jsOr (x d : ℤ) : ℤ := if x = 0 then d else x

/-- The `Math.min` of two numbers, kept as an explicit conditional. -/
def jsMin (a b : ℤ) : ℤ := if a ≤ b then a else b

/-- The `Math.max` of two numbers, kept as an explicit conditional. -/
def jsMax (a b : ℤ) : ℤ := if a ≤ b then b else a

/-- JS truthiness of an optional string: `undefined` and the empty
string are falsy. -/
def strTruthy : Option String → Bool
  | none => false
  | some s => s ≠ ""

/-- Character-list prefix test used by the substring search. -/
def strPrefixAt : List Char → List Char → Bool
  | [], _ => true
  | _ :: _, [] => false
  | p :: ps, c :: cs => p = c && strPrefixAt ps cs

/-- Character-list occurrence test: does the pattern occur at some
position of the text. -/
def strOccurs : List Char → List Char → Bool
  | pat, [] => strPrefixAt pat []
  | pat, c :: cs => strPrefixAt pat (c :: cs) || strOccurs pat cs

/-- JS `String.prototype.includes`: `pat` occurs as a substring of `s`. -/
def containsSub (s pat : String) : Bool := strOccurs pat.data s.data

/-! ## Persistence engine: retry on transient failure

Embedding of `runWithRetry` from `src/db/index.native.ts` (lines
127-152).  A thrown error is modelled as the pair of the strings the
source inspects (`error.toString()` and `error.message`).  The
operation, which in the source closes over `ensureDB()` and the actual
statement, is modelled as a function from the attempt index to an
outcome, so the two attempts may fail or succeed independently. -/

/-- Error raised by a persistence operation: the `toString()` rendering
and the `message` field inspected by `runWithRetry`. -/
structure DBError where
  toStr : String
  msg : String
deriving DecidableEq, Repr

/-- Classification of transient errors from `runWithRetry`: a
`NullPointerException` or closed-database error in either rendering. -/
def isTransientError (e : DBError) : Bool :=
  containsSub e.toStr "NullPointerException" || containsSub e.msg "NullPointerException" ||
    containsSub e.toStr "database is closed" || containsSub e.msg "database is closed"

/-- Observable engine-level effects of one `runWithRetry` call:
how many times the cached handle was dropped (`db = null`), how long
the engine slept before retrying, and how many attempts ran. -/
structure RetryTrace where
  resets : Nat
  waitedMs : Nat
  attempts : Nat
deriving DecidableEq, Repr

/-- Embedding of `runWithRetry`: run the operation; on a transient
first failure drop the handle, wait 200 ms, and retry exactly once,
returning whatever the retry returns; propagate any other error
unchanged. -/
def runWithRetry (op : Nat → Except DBError α) : Except DBError α × RetryTrace :=
  match op 0 with
  | .ok a => (.ok a, ⟨0, 0, 1⟩)
  | .error e =>
    if isTransientError e then (op 1, ⟨1, 200, 2⟩)
    else (.error e, ⟨0, 0, 1⟩)

end MyPlan

namespace MyPlan

/-- CLAIM-HELPER: a concrete transient error used in witnesses. -/
def closedErr : DBError := ⟨"Error: database is closed", "database is closed"⟩

/-- CLAIM-HELPER: a concrete non-transient error used in witnesses. -/
def diskErr : DBError := ⟨"Error: disk I/O error", "disk I/O error"⟩

end MyPlan

namespace MyPlan

/-! ## Data model

Entity records shared by the persistence engine, the cache/store layer
and the statistics engine, translated from `src/types/index.ts` and
the columns of the native schema.  Timestamps restricted to calendar
granularity are day numbers (`day`); other timestamp strings are kept
opaque. -/

/-- Habit frequency kinds. -/
inductive Frequency where
  | daily
  | weekly
  | specificDays
deriving DecidableEq, Repr

/-- Habit record. -/
structure Habit where
  id : String
  name : String
  frequency : Frequency
  frequencyDays : Option (List ℕ)
  reminderTime : Option String
  notificationIds : Option (List String)
  createdAt : String
  archived : Bool
  targetValue : ℤ
  unit : Option String
  category : Option String
  color : Option String
deriving DecidableEq, Repr

/-- Habit log record; `day` is the calendar day number of the
timestamp (the `yyyy-MM-dd` key used by the stores and statistics). -/
structure HabitLog where
  id : String
  habitId : String
  day : ℤ
  value : ℤ
  note : Option String
  imageUri : Option String
deriving DecidableEq, Repr

/-- Todo record. -/
structure Todo where
  id : String
  content : String
  isCompleted : Bool
  dueDate : Option String
  createdAt : String
  reminderTime : Option String
  note : Option String
  relatedHabitId : Option String
  category : Option String
  categories : Option (List String)
  notificationId : Option String
  completedAt : Option String
  autoPostpone : Bool
deriving DecidableEq, Repr

/-- Contents of the four durable tables. -/
structure DBState where
  habits : List Habit
  habitLogs : List HabitLog
  todos : List Todo
  categories : List String
deriving DecidableEq, Repr

/-! ## Persistence engine: bulk restore

Embedding of the two observed `restoreData` variants.  Each SQL
statement of the restore body is a table transformation; a failure
injection `outcome : Nat → Except DBError Unit` gives the result of the
statement with the given index, modelling that any delete or insert
may throw. -/

/-- Run a list of statements in order; first failure aborts. -/
def applySteps (outcome : Nat → Except DBError Unit) :
    Nat → List (DBState → DBState) → DBState → Except DBError DBState
  | _, [], cur => .ok cur
  | i, f :: rest, cur =>
    match outcome i with
    | .ok _ => applySteps outcome (i + 1) rest (f cur)
    | .error e => .error e

/-- Run a list of statements in order without a transaction; a failure
leaves the partially transformed state in place. -/
def applyStepsPartial (outcome : Nat → Except DBError Unit) :
    Nat → List (DBState → DBState) → DBState → Except DBError Unit × DBState
  | _, [], cur => (.ok (), cur)
  | i, f :: rest, cur =>
    match outcome i with
    | .ok _ => applyStepsPartial outcome (i + 1) rest (f cur)
    | .error e => (.error e, cur)

/-- Statement `DELETE FROM habits`. -/
def delHabitsStep (s : DBState) : DBState := { s with habits := [] }

/-- Statement `DELETE FROM habit_logs`. -/
def delLogsStep (s : DBState) : DBState := { s with habitLogs := [] }

/-- Statement `DELETE FROM todos`. -/
def delTodosStep (s : DBState) : DBState := { s with todos := [] }

/-- Statement `DELETE FROM categories` (alt variant only). -/
def delCategoriesStep (s : DBState) : DBState := { s with categories := [] }

/-- Statement `INSERT INTO habits ...` with all columns. -/
def insertHabitStep (h : Habit) (s : DBState) : DBState :=
  { s with habits := s.habits ++ [h] }

/-- Statement `INSERT INTO habit_logs ...` with all columns. -/
def insertLogStep (l : HabitLog) (s : DBState) : DBState :=
  { s with habitLogs := s.habitLogs ++ [l] }

/-- The native restore's todo insert names neither `completedAt` nor
an `autoPostpone` column (the latter does not exist in the native
schema), so the stored row loses both fields. -/
def nativeRestoredTodo (t : Todo) : Todo :=
  { t with completedAt := none, autoPostpone := false }

/-- Statement inserting a todo in the native restore. -/
def insertTodoNativeStep (t : Todo) (s : DBState) : DBState :=
  { s with todos := s.todos ++ [nativeRestoredTodo t] }

/-- Statement inserting a todo in the alt (part_005) restore, which
names every column including `completedAt` and `autoPostpone`. -/
def insertTodoAltStep (t : Todo) (s : DBState) : DBState :=
  { s with todos := s.todos ++ [t] }

/-- Statement `INSERT OR IGNORE INTO categories (name) VALUES (?)`. -/
def insertCategoryStep (c : String) (s : DBState) : DBState :=
  if c ∈ s.categories then s else { s with categories := s.categories ++ [c] }

/-- Statement sequence of the native `restoreData` transaction body
(`src/db/index.native.ts` lines 385-408): delete logs, habits, todos,
then insert habits, logs, todos.  The categories table never appears. -/
def nativeRestoreSteps (hs : List Habit) (ls : List HabitLog) (ts : List Todo) :
    List (DBState → DBState) :=
  [delLogsStep, delHabitsStep, delTodosStep] ++ hs.map insertHabitStep ++
    ls.map insertLogStep ++ ts.map insertTodoNativeStep

/-- Embedding of the native `restoreData`: `BEGIN` (index 0), the body
statements (indices 1..), then `COMMIT`; any failure of a body
statement or of the commit triggers `ROLLBACK`, restoring the original
state, and the error is re-thrown. -/
def restoreDataNative (outcome : Nat → Except DBError Unit) (st : DBState)
    (hs : List Habit) (ls : List HabitLog) (ts : List Todo) :
    Except DBError Unit × DBState :=
  match outcome 0 with
  | .error e => (.error e, st)
  | .ok _ =>
    let steps := nativeRestoreSteps hs ls ts
    match applySteps outcome 1 steps st with
    | .error e => (.error e, st)
    | .ok final =>
      match outcome (steps.length + 1) with
      | .ok _ => (.ok (), final)
      | .error e => (.error e, st)

/-- Statement sequence of the alt (part_005 lines 362-399)
`restoreData`, which runs with no transaction: delete habits, logs,
todos, categories, then insert habits, logs, todos, categories. -/
def altRestoreSteps (hs : List Habit) (ls : List HabitLog) (ts : List Todo)
    (cs : List String) : List (DBState → DBState) :=
  [delHabitsStep, delLogsStep, delTodosStep, delCategoriesStep] ++
    hs.map insertHabitStep ++ ls.map insertLogStep ++ ts.map insertTodoAltStep ++
    cs.map insertCategoryStep

/-- Embedding of the alt `restoreData`: the same delete-all /
insert-all sequence (including categories), but with no `BEGIN` /
`COMMIT`, so a failure leaves whatever statements already ran applied. -/
def restoreDataAlt (outcome : Nat → Except DBError Unit) (st : DBState)
    (hs : List Habit) (ls : List HabitLog) (ts : List Todo) (cs : List String) :
    Except DBError Unit × DBState :=
  applyStepsPartial outcome 0 (altRestoreSteps hs ls ts cs) st

/-- A minimal concrete habit used in counterexamples and witnesses. -/
def mkHabit (i : String) : Habit :=
  { id := i, name := i, frequency := .daily, frequencyDays := none,
    reminderTime := none, notificationIds := none, createdAt := "2025-01-01",
    archived := false, targetValue := 1, unit := none, category := none,
    color := none }

/-- Apply a statement list as pure table transformations. -/
def applyAll (l : List (DBState → DBState)) (s : DBState) : DBState :=
  l.foldl (fun s f => f s) s


/-! ## Cache/store layer

Embedding of the zustand stores `useHabitStore` and `useTodoStore`.
Only the state fields read or written by the awaited part of the
modelled mutations are represented; the durable write is an explicit
outcome parameter, and scheduler calls yield ids passed in as
parameters (an empty string models a denied/failed scheduling call).
Errors distinguish the domain rejection from a re-thrown storage
error, as the UI relies on that distinction. -/

/-- Error surfaced by a store mutation: the domain rejection thrown by
`logHabit`, or a storage error re-thrown from the persistence engine. -/
inductive StoreErr where
  | domain (msg : String)
  | db (e : DBError)
deriving DecidableEq, Repr

/-- The message of the domain rejection in `logHabit`. -/
def domainErrMsg : String := "今日已达目标"

/-- Per-date aggregate entry of `currentHabitDailyTotals`. -/
structure DayTotal where
  totalValue : ℤ
  count : ℕ
deriving DecidableEq, Repr

/-- Lookup in the per-date totals object (keys are unique). -/
def lookupTotal (m : List (ℤ × DayTotal)) (k : ℤ) : Option DayTotal :=
  (m.find? (fun p => p.1 == k)).map Prod.snd

/-- JS object assignment `m[k] = v`: replace the entry if the key is
present, append it otherwise. -/
def setTotal (m : List (ℤ × DayTotal)) (k : ℤ) (v : DayTotal) : List (ℤ × DayTotal) :=
  if (m.find? (fun p => p.1 == k)).isSome then
    m.map (fun p => if p.1 == k then (k, v) else p)
  else m ++ [(k, v)]

/-- State of `useHabitStore` touched by the modelled operations.  The
remaining fields (todayLogs, selectedDateLogs, monthlyLogs, flags) are
only rewritten by the deferred refetches, which run after the awaited
mutation completes. -/
structure HabitStoreState where
  habits : List Habit
  currentHabitLogs : List HabitLog
  currentHabitDailyTotals : List (ℤ × DayTotal)
deriving DecidableEq, Repr

/-- Array `find` by id over the cached habits. -/
def findHabit (hs : List Habit) (i : String) : Option Habit :=
  hs.find? (fun h => h.id == i)

/-- The `habit?.targetValue || 1` read in `logHabit`. -/
def targetOf (st : HabitStoreState) (habitId : String) : ℤ :=
  match findHabit st.habits habitId with
  | some h => jsOr h.targetValue 1
  | none => 1

/-- The `currentHabitDailyTotals[key]?.totalValue || 0` read in
`logHabit`. -/
def currentTotalAt (st : HabitStoreState) (day : ℤ) : ℤ :=
  match lookupTotal st.currentHabitDailyTotals day with
  | some t => jsOr t.totalValue 0
  | none => 0

/-- Embedding of `useHabitStore.logHabit` (lines 193-234): reject at
the daily target, otherwise clamp the value to the remaining amount,
apply the new log and the totals increment optimistically, then await
the durable insert; a write failure is re-thrown with the optimistic
state left in place (the source has no rollback here). -/
def logHabit (st : HabitStoreState) (habitId : String) (value : ℤ) (day : ℤ)
    (newId : String) (dbWrite : Except DBError Unit) :
    Except StoreErr Unit × HabitStoreState :=
  let target := targetOf st habitId
  let currentTotal := currentTotalAt st day
  if currentTotal ≥ target then (.error (.domain domainErrMsg), st)
  else
    let remaining := jsMax 0 (target - currentTotal)
    let adjustedValue := jsMin (jsOr value 1) remaining
    let newLog : HabitLog := ⟨newId, habitId, day, adjustedValue, none, none⟩
    let prevLogs := st.currentHabitLogs
    let prevTotals := st.currentHabitDailyTotals
    let optimisticLogs := if habitId ≠ "" then prevLogs ++ [newLog] else prevLogs
    let t := (lookupTotal prevTotals day).getD ⟨0, 0⟩
    let optimisticTotals := setTotal prevTotals day ⟨t.totalValue + adjustedValue, t.count + 1⟩
    let st1 := { st with currentHabitLogs := optimisticLogs,
                         currentHabitDailyTotals := optimisticTotals }
    match dbWrite with
    | .ok _ => (.ok (), st1)
    | .error e => (.error (.db e), st1)

/-- Embedding of `useHabitStore.updateLog` (lines 236-258): replace
the log in the cached list, add the value difference to that date
total, then await the durable update; a write failure is re-thrown
with the optimistic state left in place. -/
def updateLog (st : HabitStoreState) (log : HabitLog)
    (dbWrite : Except DBError Unit) : Except StoreErr Unit × HabitStoreState :=
  let prevLogs := st.currentHabitLogs
  let prevTotals := st.currentHabitDailyTotals
  let old := prevLogs.find? (fun l => l.id == log.id)
  let diff := jsOr log.value 0 - (match old with | some o => jsOr o.value 0 | none => 0)
  let updatedLogs := prevLogs.map (fun l => if l.id == log.id then log else l)
  let t := (lookupTotal prevTotals log.day).getD ⟨0, 0⟩
  let updatedTotals := setTotal prevTotals log.day ⟨t.totalValue + diff, t.count⟩
  let st1 := { st with currentHabitLogs := updatedLogs,
                       currentHabitDailyTotals := updatedTotals }
  match dbWrite with
  | .ok _ => (.ok (), st1)
  | .error e => (.error (.db e), st1)

/-- Embedding of `useHabitStore.deleteLog` (lines 260-283): drop the
log from the cached list, subtract its value from that date total,
then await the durable delete; a write failure is re-thrown with the
optimistic state left in place. -/
def deleteLog (st : HabitStoreState) (logId : String)
    (dbWrite : Except DBError Unit) : Except StoreErr Unit × HabitStoreState :=
  let prevLogs := st.currentHabitLogs
  let prevTotals := st.currentHabitDailyTotals
  let target := prevLogs.find? (fun l => l.id == logId)
  let updatedLogs := prevLogs.filter (fun l => l.id != logId)
  let updatedTotals :=
    match target with
    | some tg =>
      let t := (lookupTotal prevTotals tg.day).getD ⟨0, 0⟩
      setTotal prevTotals tg.day ⟨t.totalValue - jsOr tg.value 1, t.count - 1⟩
    | none => prevTotals
  let st1 := { st with currentHabitLogs := updatedLogs,
                       currentHabitDailyTotals := updatedTotals }
  match dbWrite with
  | .ok _ => (.ok (), st1)
  | .error e => (.error (.db e), st1)

/-- The per-date totals map built by `fetchHabitLogs` from the logs of
one habit: each log adds `value || 1` to its date entry. -/
def buildTotals (logs : List HabitLog) : List (ℤ × DayTotal) :=
  logs.foldl
    (fun acc l =>
      let v := jsOr l.value 1
      let item := (lookupTotal acc l.day).getD ⟨0, 0⟩
      setTotal acc l.day ⟨item.totalValue + v, item.count + 1⟩)
    []

/-- Embedding of `useHabitStore.fetchHabitLogs` (lines 88-106): the
cache fields for the current habit are replaced by the fetched logs
and their per-date totals. -/
def fetchHabitLogs (st : HabitStoreState) (dbLogs : List HabitLog) : HabitStoreState :=
  { st with currentHabitLogs := dbLogs, currentHabitDailyTotals := buildTotals dbLogs }

/-- Embedding of `useHabitStore.clearCurrentHabitData` (lines
108-110). -/
def clearCurrentHabitData (st : HabitStoreState) : HabitStoreState :=
  { st with currentHabitLogs := [], currentHabitDailyTotals := [] }

/-- State of `useTodoStore` touched by the modelled mutations. -/
structure TodoStoreState where
  todos : List Todo
deriving DecidableEq, Repr

/-- Embedding of `useTodoStore.addTodo` (lines 89-132): build the new
todo (scheduling a reminder first when one is requested; `schedId` is
the id the scheduler returns), prepend it optimistically, await the
durable insert, and on failure filter it back out and re-throw. -/
def addTodo (st : TodoStoreState) (content : String) (dueDate reminderTime note relatedHabitId : Option String)
    (categories : Option (List String)) (autoPostpone : Bool)
    (newId createdAt schedId : String) (dbWrite : Except DBError Unit) :
    Except StoreErr Unit × TodoStoreState :=
  let notificationId : Option String :=
    if strTruthy reminderTime then some schedId else none
  let newTodo : Todo :=
    { id := newId, content := content, isCompleted := false, dueDate := dueDate,
      createdAt := createdAt, reminderTime := reminderTime, note := note,
      relatedHabitId := relatedHabitId, category := none, categories := categories,
      notificationId := notificationId, completedAt := none, autoPostpone := autoPostpone }
  let optimistic : TodoStoreState := { st with todos := newTodo :: st.todos }
  match dbWrite with
  | .ok _ => (.ok (), optimistic)
  | .error e =>
    (.error (.db e), { optimistic with todos := optimistic.todos.filter (fun t => t.id != newId) })

/-- The todo `updateTodo` persists: the given record with its
notification id resolved by the reminder-diffing rules (`schedId` is
the id a fresh scheduling call returns; `futureOk` is the
`new Date(newReminder) > new Date()` test). -/
def updateTodoFinal (oldTodo updatedTodo : Todo) (schedId : String) (futureOk : Bool) : Todo :=
  let reminderChanged := oldTodo.reminderTime ≠ updatedTodo.reminderTime
  let notificationId : Option String :=
    if reminderChanged then
      let afterCancel := if strTruthy oldTodo.notificationId then none
                         else updatedTodo.notificationId
      if strTruthy updatedTodo.reminderTime then some schedId else afterCancel
    else if updatedTodo.content ≠ oldTodo.content ∧ strTruthy updatedTodo.notificationId then
      if strTruthy updatedTodo.reminderTime ∧ futureOk then some schedId
      else updatedTodo.notificationId
    else updatedTodo.notificationId
  { updatedTodo with notificationId := notificationId }

/-- Embedding of `useTodoStore.updateTodo` (lines 134-193).  The
reminder diffing decides the stored notification id (`schedId` is the
id a fresh scheduling call returns; `futureOk` is the
`new Date(newReminder) > new Date()` test); the merged todo replaces
the old one optimistically; a durable-write failure maps the old todo
back in and re-throws. -/
def updateTodo (st : TodoStoreState) (updatedTodo : Todo) (schedId : String)
    (futureOk : Bool) (dbWrite : Except DBError Unit) :
    Except StoreErr Unit × TodoStoreState :=
  match st.todos.find? (fun t => t.id == updatedTodo.id) with
  | none => (.ok (), st)
  | some oldTodo =>
    let finalTodo := updateTodoFinal oldTodo updatedTodo schedId futureOk
    let optimistic : TodoStoreState :=
      { st with todos := st.todos.map (fun t => if t.id == finalTodo.id then finalTodo else t) }
    match dbWrite with
    | .ok _ => (.ok (), optimistic)
    | .error e =>
      (.error (.db e),
        { optimistic with
            todos := optimistic.todos.map (fun t => if t.id == oldTodo.id then oldTodo else t) })

/-- The todo `toggleTodo` persists: completion flag set and
`completedAt` stamped or cleared. -/
def toggledTodo (todo : Todo) (isCompleted : Bool) (now : String) : Todo :=
  { todo with isCompleted := isCompleted,
              completedAt := if isCompleted then some now else none }

/-- Embedding of `useTodoStore.toggleTodo` (lines 195-223): set the
completion flag and `completedAt` optimistically, await the durable
update, and on failure map the old todo back in and re-throw. -/
def toggleTodo (st : TodoStoreState) (todoId : String) (isCompleted : Bool)
    (now : String) (dbWrite : Except DBError Unit) :
    Except StoreErr Unit × TodoStoreState :=
  match st.todos.find? (fun t => t.id == todoId) with
  | none => (.ok (), st)
  | some todo =>
    let updatedTodo := toggledTodo todo isCompleted now
    let optimistic : TodoStoreState :=
      { st with todos := st.todos.map (fun t => if t.id == todoId then updatedTodo else t) }
    match dbWrite with
    | .ok _ => (.ok (), optimistic)
    | .error e =>
      (.error (.db e),
        { optimistic with
            todos := optimistic.todos.map (fun t => if t.id == todoId then todo else t) })

/-- Embedding of `useTodoStore.deleteTodo` (lines 225-251): remove the
todo optimistically, await the durable delete; on failure the source
appends the removed todo back and then forces `fetchTodos(true)`,
whose resulting list is the `refetched` parameter, so the cache ends
as the re-fetched durable projection, and the error is re-thrown. -/
def deleteTodo (st : TodoStoreState) (todoId : String)
    (dbWrite : Except DBError Unit) (refetched : List Todo) :
    Except StoreErr Unit × TodoStoreState :=
  match st.todos.find? (fun t => t.id == todoId) with
  | none => (.ok (), st)
  | some _ =>
    let optimistic : TodoStoreState := { st with todos := st.todos.filter (fun t => t.id != todoId) }
    match dbWrite with
    | .ok _ => (.ok (), optimistic)
    | .error e => (.error (.db e), { st with todos := refetched })



/-- A concrete habit with daily target 3, for the clamp scenario. -/
def habitT3 : Habit := { mkHabit "h1" with targetValue := 3 }

/-- Clamp-scenario state: target-3 habit, cached total 2 for day 0. -/
def c1state0 : HabitStoreState := ⟨[habitT3], [], [(0, ⟨2, 2⟩)]⟩

/-- Clamp-scenario state after the first log: total 3 for day 0. -/
def c1state1 : HabitStoreState :=
  ⟨[habitT3], [⟨"n1", "h1", 0, 1, none, none⟩], [(0, ⟨3, 3⟩)]⟩



/-! ## Home-screen widget task handler

Embedding of the LOG_HABIT click action of `widgetTaskHandler`
(part_000, lines 138-166): it builds a log of value 1 at the current
instant and inserts it durably; no target, total, or domain rule is
consulted, and the handler itself throws no domain error (its outer
try/catch only reports storage failures as a toast). -/

/-- Effect of a LOG_HABIT widget tap on the durable log table when the
insert succeeds. -/
def widgetLogHabit (logs : List HabitLog) (habitId : String) (day : ℤ)
    (newId : String) : Except StoreErr (List HabitLog) :=
  .ok (logs ++ [⟨newId, habitId, day, 1, none, none⟩])

/-- The widget's aggregate of a habit's logged values on one day
(`hLogs.reduce((sum, log) => sum + (log.value || 1), 0)`). -/
def dayTotalInDB (logs : List HabitLog) (habitId : String) (day : ℤ) : ℤ :=
  ((logs.filter (fun l => l.habitId == habitId && l.day == day)).map
    (fun l => jsOr l.value 1)).sum

/-! ## Notification delivery filter

Embedding of the `handleNotification` decision function installed in
`App.tsx` (lines 24-158).  The fired payload is the metadata the app
attaches (`createdAt` ms timestamp and a `type` tag) plus the trigger
shape the code probes for: an absolute-time trigger carrying a numeric
`value`, a recurring trigger carrying `hour`/`minute`, or anything
else. -/

/-- Trigger shapes the delivery filter distinguishes. -/
inductive TriggerInfo where
  | timestamp (value : ℤ)
  | calendar (hour minute : ℤ)
  | other
deriving DecidableEq, Repr

/-- Metadata of the fired notification payload. -/
structure NotificationData where
  createdAt : Option ℤ
  type : Option String
deriving DecidableEq, Repr

/-- The handler's returned display decision. -/
structure HandlerDecision where
  shouldShowAlert : Bool
  shouldPlaySound : Bool
  shouldSetBadge : Bool
deriving DecidableEq, Repr

/-- The suppressing decision (no alert, no sound, no badge). -/
def suppressDecision : HandlerDecision := ⟨false, false, false⟩

/-- The displaying decision (alert shown with sound). -/
def showDecision : HandlerDecision := ⟨true, true, false⟩

/-- The just-created guard: metadata carries a creation timestamp less
than 15 s old and the payload is a repeating habit trigger. -/
def justCreatedGuard (data : NotificationData) (nowMs : ℤ) : Bool :=
  match data.createdAt with
  | some c => decide (nowMs - c < 15000) && (data.type == some "habit")
  | none => false

/-- Embedding of `handleNotification`: suppress a just-created habit
trigger; suppress a stale absolute trigger (more than 5 minutes after
its scheduled instant); suppress a recurring trigger whose signed
minute offset from its scheduled time-of-day is below -1 or above 5;
display everything else with sound. -/
def handleNotification (data : NotificationData) (trigger : TriggerInfo)
    (nowMs nowHour nowMinute : ℤ) : HandlerDecision :=
  if justCreatedGuard data nowMs then suppressDecision
  else
    match trigger with
    | .timestamp v =>
      if nowMs - v > 5 * 60 * 1000 then suppressDecision else showDecision
    | .calendar h m =>
      let nowTotal := nowHour * 60 + nowMinute
      let triggerTotal := h * 60 + m
      let diffMinutes := nowTotal - triggerTotal
      if diffMinutes < -1 then suppressDecision
      else if diffMinutes > 5 then suppressDecision
      else showDecision
    | .other => showDecision



/-! ## Habit update and reminder re-scheduling

Embedding of `useHabitStore.updateHabit` (lines 285-356).  The partial
update is a change set whose outer `Option` marks field presence (for
the optional habit fields the inner `Option` is the new value, which
may itself be `undefined`).  Scheduler calls are modelled by the id
each call returns (`catchupId` for the one-time catch-up when the
reminder time is still ahead today — `catchupFuture` is the
`todayTarget > now` test — and `repId i` for the i-th repeating call);
an empty string is the denied-permission sentinel, recorded as a call
but not pushed into the stored id list.  The observable effect is the
sequence of notification-service and persistence events plus the new
cached habit list. -/

/-- A partial habit change set with a mandatory id (the fields the
app edits; `notificationIds` is never part of a caller's change
set). -/
structure HabitChanges where
  id : String
  name : Option String
  frequency : Option Frequency
  frequencyDays : Option (Option (List ℕ))
  reminderTime : Option (Option String)
  targetValue : Option ℤ
  category : Option (Option String)
deriving DecidableEq, Repr

/-- The object spread merging the change set over the existing
habit. -/
def applyChanges (h : Habit) (c : HabitChanges) : Habit :=
  { h with
      name := c.name.getD h.name,
      frequency := c.frequency.getD h.frequency,
      frequencyDays := match c.frequencyDays with | some v => v | none => h.frequencyDays,
      reminderTime := match c.reminderTime with | some v => v | none => h.reminderTime,
      targetValue := c.targetValue.getD h.targetValue,
      category := match c.category with | some v => v | none => h.category }

/-- The notification branch condition of `updateHabit`:
`habitChanges.reminderTime !== undefined && habitChanges.reminderTime
!== existingHabit.reminderTime`. -/
def reminderChangeRequested (c : HabitChanges) (existing : Habit) : Bool :=
  match c.reminderTime with
  | some (some r) => !(existing.reminderTime == some r)
  | some none => false
  | none => false

/-- Observable events of one `updateHabit` run, in order. -/
inductive UpdEvent where
  | cancel (id : String)
  | schedule (id : String)
  | persistHabit (h : Habit)
deriving DecidableEq, Repr

/-- Embedding of `useHabitStore.updateHabit`: merge the change set; if
the reminder time changed, cancel every stored notification id, then
schedule the catch-up and the repeating reminders the merged
frequency/frequencyDays call for, keep the truthy returned ids, and
persist the merged habit carrying exactly those ids; otherwise persist
the merged habit as-is, leaving the stored ids untouched. -/
def updateHabit (habits : List Habit) (c : HabitChanges)
    (catchupFuture : Bool) (catchupId : String) (repId : ℕ → String) :
    List UpdEvent × List Habit :=
  match habits.find? (fun h => h.id == c.id) with
  | none => ([], habits)
  | some existing =>
    let merged := applyChanges existing c
    if reminderChangeRequested c existing then
      let cancelEvents := (existing.notificationIds.getD []).map UpdEvent.cancel
      let calls : List String :=
        if strTruthy merged.reminderTime then
          (if catchupFuture then [catchupId] else []) ++
            (match merged.frequency with
             | .daily => [repId 0]
             | .specificDays =>
               match merged.frequencyDays with
               | some ds => (List.range ds.length).map repId
               | none => []
             | .weekly => [])
        else []
      let newIds := calls.filter (fun i => i ≠ "")
      let finalHabit := { merged with notificationIds := some newIds }
      (cancelEvents ++ calls.map UpdEvent.schedule ++ [UpdEvent.persistHabit finalHabit],
        habits.map (fun h => if h.id == finalHabit.id then finalHabit else h))
    else
      ([UpdEvent.persistHabit merged],
        habits.map (fun h => if h.id == merged.id then merged else h))

/-- Concrete habit for the C8 scenario: a daily habit with a reminder
and one stored notification id. -/
def c8habit : Habit :=
  { mkHabit "1" with reminderTime := some "2025-01-01T09:00",
                     notificationIds := some ["old1"] }

/-- Concrete change set for the C8 scenario: switch the frequency to
specific days without touching the reminder time. -/
def c8changes : HabitChanges :=
  ⟨"1", none, some .specificDays, some (some [1]), none, none, none⟩



/-! ## Statistics engine

Embedding of `calculateHabitStats` and its helpers (part_003).  Dates
are day numbers; `getDay` is the day number mod 7 (Sunday epoch).  The
generic chain-length functions below capture the streak loops: the
best-streak loop is a fold carrying the current and best run lengths,
and the current-streak loop walks the sorted dates backwards. -/

/-- Weekday of a day number, 0 = Sunday, as JS `getDay`. -/
def dayOfWeek (d : ℤ) : ℤ := d % 7

/-- Embedding of `isScheduled`: every day for `daily`, membership of
the weekday in `frequencyDays` for `specific_days`, and always true
for `weekly`. -/
def isScheduled (h : Habit) (d : ℤ) : Bool :=
  match h.frequency with
  | .daily => true
  | .specificDays => (h.frequencyDays.getD []).contains (dayOfWeek d).toNat
  | .weekly => true

/-- Embedding of `isStreakContinuous`: false for a non-positive day
difference, true for consecutive days, and otherwise true iff no day
strictly between the two is scheduled (the loop probes `curr - i` for
`i` in `[1, diff)`). -/
def isStreakContinuous (h : Habit) (prev curr : ℤ) : Bool :=
  let diff := curr - prev
  if diff ≤ 0 then false
  else if diff = 1 then true
  else (List.range' 1 (diff.toNat - 1)).all (fun i => !isScheduled h (curr - (i : ℤ)))

/-- Embedding of `isStreakAlive`: true on the same day, and otherwise
true iff no day strictly between the last completed date and today is
scheduled. -/
def isStreakAlive (h : Habit) (lastCompleted today : ℤ) : Bool :=
  if lastCompleted = today then true
  else
    let diff := today - lastCompleted
    if diff = 0 then true
    else (List.range' 1 (diff.toNat - 1)).all (fun i => !isScheduled h (today - (i : ℤ)))

/-- Length of the longest prefix of the list that continues a chain
from the given element. -/
def chainContLen (R : α → α → Bool) : α → List α → ℕ
  | _, [] => 0
  | prev, d :: rest => if R prev d then 1 + chainContLen R d rest else 0

/-- Length of the longest chain prefix of the list. -/
def chainPrefixLen (R : α → α → Bool) : List α → ℕ
  | [] => 0
  | a :: rest => 1 + chainContLen R a rest

/-- Specification-side reading of the best streak: the greatest chain
length over all suffix starting points (equivalently, over all
contiguous runs). -/
def bestSpec (R : α → α → Bool) : List α → ℕ
  | [] => 0
  | a :: rest => max (chainPrefixLen R (a :: rest)) (bestSpec R rest)

/-- The best-streak loop body: carries the previous date, the current
run length and the best seen so far. -/
def bestStreakGo (R : α → α → Bool) : α → ℕ → ℕ → List α → ℕ
  | _, _, best, [] => best
  | prev, temp, best, d :: rest =>
    let t := if R prev d then temp + 1 else 1
    bestStreakGo R d t (max best t) rest

/-- The best-streak scan over the ascending completed dates. -/
def bestStreakOf (R : α → α → Bool) : List α → ℕ
  | [] => 0
  | d :: rest => bestStreakGo R d 1 1 rest

/-- Intermediate value of the best-streak loop ignoring the incoming
best (used to reason about the fold). -/
def bestAux (R : α → α → Bool) : α → ℕ → List α → ℕ
  | _, _, [] => 0
  | prev, temp, d :: rest =>
    let t := if R prev d then temp + 1 else 1
    max t (bestAux R d t rest)

/-- The current-streak loop: walk the completed dates backwards from
the most recent one while consecutive pairs stay continuous. -/
def runEndGo (h : Habit) : ℤ → List ℤ → ℕ
  | _, [] => 1
  | curr, prev :: rest =>
    if isStreakContinuous h prev curr then 1 + runEndGo h prev rest else 1

/-- Length of the streak ending at the most recent completed date. -/
def runEndLen (h : Habit) (l : List ℤ) : ℕ :=
  match l.reverse with
  | [] => 0
  | c :: rest => runEndGo h c rest

/-- Aggregate of the log values recorded on one day
(`logsByDate[dateStr]`). -/
def dayAggregate (logs : List HabitLog) (d : ℤ) : ℤ :=
  ((logs.filter (fun l => l.day == d)).map HabitLog.value).sum

/-- The ascending list of completed dates: days whose aggregate
reaches `targetValue || 1`, in sorted order. -/
def completedDatesOf (h : Habit) (logs : List HabitLog) : List ℤ :=
  List.insertionSort (· ≤ ·)
    (((logs.map HabitLog.day).dedup).filter
      (fun d => dayAggregate logs d ≥ jsOr h.targetValue 1))

/-- JS `Math.round (a / b)` for `b > 0`. -/
def roundDiv (a b : ℤ) : ℤ := (2 * a + b) / (2 * b)

/-- The trailing-30-day completion rate: scheduled days in the window,
completed ones among them (a zero or absent aggregate is falsy and
never counts), rounded percentage, 0 with no scheduled day. -/
def completionRateOf (h : Habit) (logs : List HabitLog) (today : ℤ) : ℤ :=
  let window := (List.range 30).map (fun i => today - (i : ℤ))
  let scheduled := window.filter (fun d => isScheduled h d)
  let completed := scheduled.filter
    (fun d => dayAggregate logs d ≠ 0 ∧ dayAggregate logs d ≥ jsOr h.targetValue 1)
  if 0 < scheduled.length then roundDiv (100 * completed.length) scheduled.length else 0

/-- Output of the statistics engine (the per-date aggregate map is the
function `dayAggregate`). -/
structure HabitStats where
  totalDays : ℕ
  currentStreak : ℕ
  bestStreak : ℕ
  completionRate : ℤ
deriving DecidableEq, Repr

/-- Embedding of `calculateHabitStats`: aggregate per date, filter the
completed dates, and for a daily or specific-days habit scan them
ascending for the best streak and backwards from the most recent for
the current streak, counting the latter only when the gap to today is
alive; `weekly` yields 0/0 streaks; an empty completed list
short-circuits with zero statistics. -/
def calculateHabitStats (h : Habit) (logs : List HabitLog) (today : ℤ) : HabitStats :=
  let sortedDates := completedDatesOf h logs
  if h.frequency = .daily ∨ h.frequency = .specificDays then
    match sortedDates with
    | [] => ⟨0, 0, 0, 0⟩
    | d :: rest =>
      let best := bestStreakGo (fun a b => isStreakContinuous h a b) d 1 1 rest
      let lastCompleted := ((d :: rest).getLast?).getD 0
      let running := runEndGo h lastCompleted ((d :: rest).reverse.tail)
      let current := if isStreakAlive h lastCompleted today then running else 0
      ⟨(d :: rest).length, current, best, completionRateOf h logs today⟩
  else
    ⟨sortedDates.length, 0, 0, completionRateOf h logs today⟩

/-- The Monday/Wednesday/Friday habit of the streak scenario. -/
def mwfHabit : Habit :=
  { mkHabit "mwf" with frequency := .specificDays, frequencyDays := some [1, 3, 5] }

/-- Logs completing Monday (day 1), Wednesday (day 3) and Friday
(day 5) of the epoch week. -/
def mwfLogs : List HabitLog :=
  [⟨"a", "mwf", 1, 1, none, none⟩, ⟨"b", "mwf", 3, 1, none, none⟩,
    ⟨"c", "mwf", 5, 1, none, none⟩]

/-- The same week with the Wednesday completion missing. -/
def mwfLogsMissedWed : List HabitLog :=
  [⟨"a", "mwf", 1, 1, none, none⟩, ⟨"c", "mwf", 5, 1, none, none⟩]



/-- Reachable cache state for the C10 counterexample: habit A (target
3) had its logs fetched into the shared totals map; habit B (target 1)
was never fetched. -/
def c10stateAB : HabitStoreState :=
  fetchHabitLogs ⟨[{ mkHabit "A" with targetValue := 3 }, mkHabit "B"], [], []⟩
    [⟨"a1", "A", 0, 3, none, none⟩]


end MyPlan

-- THEOREM-REGION-START

namespace MyPlan

/-- Under a failure injection, a statement sequence either aborts with
some error or completes with the fold of all statements. -/
theorem applySteps_cases (outcome : Nat → Except DBError Unit) :
    ∀ (steps : List (DBState → DBState)) (i : Nat) (cur : DBState),
      (∃ e, applySteps outcome i steps cur = .error e) ∨
        applySteps outcome i steps cur = .ok (applyAll steps cur) := by
  intro steps
  induction steps with
  | nil => intro i cur; right; rfl
  | cons f rest ih =>
    intro i cur
    cases h : outcome i with
    | ok u => simpa [applySteps, applyAll, h] using ih (i + 1) (f cur)
    | error e => left; exact ⟨e, by simp [applySteps, h]⟩

/-- Folding the habit inserts appends the habits. -/
theorem applyAll_insertHabits : ∀ (hs : List Habit) (s : DBState),
    applyAll (hs.map insertHabitStep) s = { s with habits := s.habits ++ hs } := by
  intro hs
  induction hs with
  | nil => intro s; simp [applyAll]
  | cons h t ih =>
    intro s
    simp only [List.map_cons, applyAll, List.foldl_cons]
    have := ih (insertHabitStep h s)
    simp only [applyAll, insertHabitStep] at this
    simp only [insertHabitStep]
    rw [this]
    simp [List.append_assoc]

/-- Folding the log inserts appends the logs. -/
theorem applyAll_insertLogs : ∀ (ls : List HabitLog) (s : DBState),
    applyAll (ls.map insertLogStep) s = { s with habitLogs := s.habitLogs ++ ls } := by
  intro ls
  induction ls with
  | nil => intro s; simp [applyAll]
  | cons h t ih =>
    intro s
    simp only [List.map_cons, applyAll, List.foldl_cons]
    have := ih (insertLogStep h s)
    simp only [applyAll, insertLogStep] at this
    simp only [insertLogStep]
    rw [this]
    simp [List.append_assoc]

/-- Folding the native todo inserts appends the stripped todo rows. -/
theorem applyAll_insertTodosNative : ∀ (ts : List Todo) (s : DBState),
    applyAll (ts.map insertTodoNativeStep) s =
      { s with todos := s.todos ++ ts.map nativeRestoredTodo } := by
  intro ts
  induction ts with
  | nil => intro s; simp [applyAll]
  | cons h t ih =>
    intro s
    simp only [List.map_cons, applyAll, List.foldl_cons]
    have := ih (insertTodoNativeStep h s)
    simp only [applyAll, insertTodoNativeStep] at this
    simp only [insertTodoNativeStep]
    rw [this]
    simp [List.append_assoc]

/-- The full native statement sequence turns any state into exactly
the restored state, leaving the categories table as it was. -/
theorem applyAll_nativeRestoreSteps (hs : List Habit) (ls : List HabitLog)
    (ts : List Todo) (st : DBState) :
    applyAll (nativeRestoreSteps hs ls ts) st =
      ⟨hs, ls, ts.map nativeRestoredTodo, st.categories⟩ := by
  simp only [nativeRestoreSteps, applyAll, List.foldl_append]
  have h1 := applyAll_insertHabits hs
    (delTodosStep (delHabitsStep (delLogsStep st)))
  have h2 := applyAll_insertLogs ls
    { delTodosStep (delHabitsStep (delLogsStep st)) with
        habits := (delTodosStep (delHabitsStep (delLogsStep st))).habits ++ hs }
  simp only [applyAll] at h1 h2
  simp only [List.foldl_cons, List.foldl_nil]
  rw [h1, h2]
  have h3 := applyAll_insertTodosNative ts
  simp only [applyAll] at h3
  rw [h3]
  simp [delTodosStep, delHabitsStep, delLogsStep]

end MyPlan

namespace MyPlan


/-- C3 counterexample: a fully successful native restore leaves the
prior rows of the categories table in place — the claimed
delete-all-then-insert-all over every entity kind does not happen for
categories (the native restore body never touches that table, and its
API does not even accept category rows). -/
theorem spec_c3_counterexample :
    restoreDataNative (fun _ => .ok ()) ⟨[], [], [], ["work"]⟩ [] [] [] =
        (.ok (), ⟨[], [], [], ["work"]⟩) ∧
      (["work"] : List String) ≠ [] := by
  constructor
  · rfl
  · decide

/-- C3 amended: the native restore is all-or-nothing over the habits,
habit_logs and todos tables: it either commits, leaving exactly the
given habit and log rows and the given todo rows stripped of
`completedAt`/`autoPostpone`, with the categories table untouched, or
some statement fails, the transaction rolls back, and every table
holds exactly its prior contents.  The alt (part_005) variant also
replaces categories but runs without a transaction: the final conjunct
exhibits a failure injection under which it ends in a state that is
neither the prior state nor the restored one (an observable partial
restore). -/
theorem spec_c3_restore_all_or_nothing :
    (∀ (outcome : Nat → Except DBError Unit) (st : DBState) (hs : List Habit)
        (ls : List HabitLog) (ts : List Todo),
      (∃ e, restoreDataNative outcome st hs ls ts = (.error e, st)) ∨
        restoreDataNative outcome st hs ls ts =
          (.ok (), ⟨hs, ls, ts.map nativeRestoredTodo, st.categories⟩)) ∧
    (restoreDataAlt (fun i => if i = 4 then .error diskErr else .ok ())
          ⟨[mkHabit "old"], [], [], ["work"]⟩ [mkHabit "new"] [] [] [] =
        (.error diskErr, ⟨[], [], [], []⟩) ∧
      (⟨[], [], [], []⟩ : DBState) ≠ ⟨[mkHabit "old"], [], [], ["work"]⟩ ∧
      (⟨[], [], [], []⟩ : DBState) ≠ ⟨[mkHabit "new"], [], [], []⟩) := by
  refine ⟨?_, ?_, by decide, by decide⟩
  · intro outcome st hs ls ts
    unfold restoreDataNative
    cases h0 : outcome 0 with
    | error e => exact Or.inl ⟨e, by simp⟩
    | ok u =>
      rcases applySteps_cases outcome (nativeRestoreSteps hs ls ts) 1 st with ⟨e, he⟩ | hok
      · exact Or.inl ⟨e, by simp [he]⟩
      · cases hc : outcome ((nativeRestoreSteps hs ls ts).length + 1) with
        | ok u2 =>
          right
          simp [hok, hc, applyAll_nativeRestoreSteps]
        | error e => exact Or.inl ⟨e, by simp [hok, hc]⟩
  · rfl

end MyPlan

namespace MyPlan

/-- C4: for every persistence operation, a transient (connection-closed
or null-handle) first failure causes the engine to drop the cached
handle, wait the fixed 200 ms delay, and retry the operation exactly
once, so a successful retry is invisible to the caller; a
non-transient first error propagates unchanged with no retry; and a
failure of the retry itself (of any class) propagates unchanged with
no further retry. -/
theorem spec_c4_retry_on_transient_failure {α : Type} (op : Nat → Except MyPlan.DBError α) :
    (∀ a, op 0 = .ok a → runWithRetry op = (.ok a, ⟨0, 0, 1⟩)) ∧
    (∀ e a, op 0 = .error e → isTransientError e = true → op 1 = .ok a →
      runWithRetry op = (.ok a, ⟨1, 200, 2⟩)) ∧
    (∀ e, op 0 = .error e → isTransientError e = false →
      runWithRetry op = (.error e, ⟨0, 0, 1⟩)) ∧
    (∀ e e₂, op 0 = .error e → isTransientError e = true → op 1 = .error e₂ →
      runWithRetry op = (.error e₂, ⟨1, 200, 2⟩)) := by
  refine ⟨?_, ?_, ?_, ?_⟩
  · intro a h; simp [runWithRetry, h]
  · intro e a h ht h2; simp [runWithRetry, h, ht, h2]
  · intro e h ht; simp [runWithRetry, h, ht]
  · intro e e₂ h ht h2; simp [runWithRetry, h, ht, h2]

/-- Witness for C4: with a concrete operation that throws a
connection-closed error on the first attempt and succeeds on the
retry, the caller observes plain success; applying the theorem at this
input discharges all hypotheses. -/
theorem spec_c4_retry_on_transient_failure_witness :
    runWithRetry (fun n => if n = 0 then .error closedErr else .ok (7 : ℕ)) =
      (.ok 7, ⟨1, 200, 2⟩) := by
  have h := (spec_c4_retry_on_transient_failure
    (fun n => if n = 0 then .error closedErr else .ok (7 : ℕ))).2.1
  exact h closedErr 7 rfl (by decide) rfl

end MyPlan

namespace MyPlan

/-- The numeric JS fallback with default 0 is the identity. -/
theorem jsOr_zero_right (x : ℤ) : jsOr x 0 = x := by
  unfold jsOr; split <;> simp_all

/-- A nonzero number passes through the JS fallback. -/
theorem jsOr_of_ne_zero {x : ℤ} (d : ℤ) (h : x ≠ 0) : jsOr x d = x := by
  simp [jsOr, h]

/-- The explicit conditional agrees with the lattice minimum. -/
theorem jsMin_eq (a b : ℤ) : jsMin a b = min a b := (min_def a b).symm

/-- The explicit conditional agrees with the lattice maximum. -/
theorem jsMax_eq (a b : ℤ) : jsMax a b = max a b := (max_def a b).symm

/-- Object assignment then lookup at the same key yields the assigned
value (present-key case of the underlying search). -/
theorem find?_map_set (k : ℤ) (v : DayTotal) :
    ∀ m : List (ℤ × DayTotal), (m.find? (fun p => p.1 == k)).isSome = true →
      (m.map (fun p => if p.1 == k then (k, v) else p)).find? (fun p => p.1 == k) =
        some (k, v) := by
  intro m
  induction m with
  | nil => intro h; simp [List.find?] at h
  | cons p rest ih =>
    intro h
    by_cases hk : p.1 = k
    · simp [List.find?_cons, hk]
    · have h' : (rest.find? (fun p => p.1 == k)).isSome = true := by
        simpa [List.find?_cons, hk] using h
      simpa [List.find?_cons, hk] using ih h'

/-- Appending a fresh entry then looking it up yields it (absent-key
case of the underlying search). -/
theorem find?_append_fresh (k : ℤ) (v : DayTotal) :
    ∀ m : List (ℤ × DayTotal), m.find? (fun p => p.1 == k) = none →
      (m ++ [(k, v)]).find? (fun p => p.1 == k) = some (k, v) := by
  intro m
  induction m with
  | nil => intro _; simp [List.find?]
  | cons p rest ih =>
    intro h
    by_cases hk : p.1 = k
    · simp [List.find?_cons, hk] at h
    · have h' : rest.find? (fun p => p.1 == k) = none := by
        simpa [List.find?_cons, hk] using h
      simpa [List.find?_cons, hk] using ih h'

/-- Assignment followed by lookup at the same key yields the assigned
value. -/
theorem lookupTotal_setTotal_self (m : List (ℤ × DayTotal)) (k : ℤ) (v : DayTotal) :
    lookupTotal (setTotal m k v) k = some v := by
  unfold setTotal
  split
  next hsome =>
    unfold lookupTotal
    rw [find?_map_set k v m hsome]
    rfl
  next hnone =>
    have h : m.find? (fun p => p.1 == k) = none := by
      cases hf : m.find? (fun p => p.1 == k) with
      | none => rfl
      | some x => rw [hf] at hnone; simp at hnone
    simp [lookupTotal, find?_append_fresh k v m h]

/-- The current total read equals the `totalValue` of the defaulted
lookup. -/
theorem currentTotalAt_eq_getD (st : HabitStoreState) (day : ℤ) :
    currentTotalAt st day =
      ((lookupTotal st.currentHabitDailyTotals day).getD ⟨0, 0⟩).totalValue := by
  unfold currentTotalAt
  cases h : lookupTotal st.currentHabitDailyTotals day with
  | none => simp
  | some t => simp [jsOr_zero_right]

end MyPlan

namespace MyPlan

/-- C1: logging a habit whose cached total for the log's date already
reached the daily target is rejected with the domain error before any
state change; otherwise the recorded log value is the request clamped
to the remaining amount, `min v (T - c)`, and the date's total after
the operation never exceeds the target. -/
theorem spec_c1_daily_target_clamp
    (st : HabitStoreState) (h : Habit) (habitId : String) (v : ℤ) (day : ℤ)
    (newId : String) (dbW : Except DBError Unit)
    (hfind : findHabit st.habits habitId = some h)
    (hT : 1 ≤ h.targetValue) (hv : v ≠ 0) (hid : habitId ≠ "") :
    (currentTotalAt st day ≥ h.targetValue →
      logHabit st habitId v day newId dbW = (.error (.domain domainErrMsg), st)) ∧
    (currentTotalAt st day < h.targetValue → dbW = .ok () →
      ∃ rec : HabitLog,
        (logHabit st habitId v day newId dbW).1 = .ok () ∧
        (logHabit st habitId v day newId dbW).2.currentHabitLogs =
          st.currentHabitLogs ++ [rec] ∧
        rec.value = min v (h.targetValue - currentTotalAt st day) ∧
        currentTotalAt (logHabit st habitId v day newId dbW).2 day =
          currentTotalAt st day + rec.value ∧
        currentTotalAt (logHabit st habitId v day newId dbW).2 day ≤ h.targetValue) := by
  have htv : targetOf st habitId = h.targetValue := by
    have hz : h.targetValue ≠ 0 := by positivity
    simp [targetOf, hfind, jsOr_of_ne_zero _ hz]
  constructor
  · intro hge
    unfold logHabit
    rw [htv, if_pos hge]
  · intro hlt hdb
    subst hdb
    have hjv : jsOr v 1 = v := jsOr_of_ne_zero _ hv
    have hrem : max 0 (h.targetValue - currentTotalAt st day) =
        h.targetValue - currentTotalAt st day := max_eq_right (by linarith)
    have hres : logHabit st habitId v day newId (.ok ()) =
        (.ok (), { st with
          currentHabitLogs := st.currentHabitLogs ++
            [⟨newId, habitId, day, min v (h.targetValue - currentTotalAt st day), none, none⟩],
          currentHabitDailyTotals := setTotal st.currentHabitDailyTotals day
            ⟨((lookupTotal st.currentHabitDailyTotals day).getD ⟨0, 0⟩).totalValue +
                min v (h.targetValue - currentTotalAt st day),
              ((lookupTotal st.currentHabitDailyTotals day).getD ⟨0, 0⟩).count + 1⟩ }) := by
      unfold logHabit
      rw [htv, if_neg (not_le.mpr hlt)]
      simp [hid, hjv, hrem, jsMin_eq, jsMax_eq]
    refine ⟨⟨newId, habitId, day, min v (h.targetValue - currentTotalAt st day), none, none⟩,
      by rw [hres], by rw [hres], rfl, ?_, ?_⟩
    · rw [hres, currentTotalAt_eq_getD]
      simp only [lookupTotal_setTotal_self, Option.getD_some]
      have hcv : currentTotalAt st day =
          ((lookupTotal st.currentHabitDailyTotals day).getD ⟨0, 0⟩).totalValue :=
        currentTotalAt_eq_getD st day
      rw [← hcv]
    · rw [hres, currentTotalAt_eq_getD]
      simp only [lookupTotal_setTotal_self, Option.getD_some]
      have hcv : currentTotalAt st day =
          ((lookupTotal st.currentHabitDailyTotals day).getD ⟨0, 0⟩).totalValue :=
        currentTotalAt_eq_getD st day
      rw [← hcv]
      have hmr := min_le_right v (h.targetValue - currentTotalAt st day)
      linarith

end MyPlan

namespace MyPlan

/-- Witness for C1, the clamp scenario of the specification: target 3,
existing today total 2, a request of value 5 records a log of value
min 5 (3 - 2) = 1 bringing the total to exactly 3, and a further
request that day is rejected with the domain error. -/
theorem spec_c1_daily_target_clamp_witness :
    (∃ rec : HabitLog,
      (logHabit c1state0 "h1" 5 0 "n1" (.ok ())).1 = .ok () ∧
      (logHabit c1state0 "h1" 5 0 "n1" (.ok ())).2.currentHabitLogs =
        c1state0.currentHabitLogs ++ [rec] ∧
      rec.value = min 5 (habitT3.targetValue - currentTotalAt c1state0 0) ∧
      currentTotalAt (logHabit c1state0 "h1" 5 0 "n1" (.ok ())).2 0 =
        currentTotalAt c1state0 0 + rec.value ∧
      currentTotalAt (logHabit c1state0 "h1" 5 0 "n1" (.ok ())).2 0 ≤ habitT3.targetValue) ∧
    (logHabit c1state0 "h1" 5 0 "n1" (.ok ())).2 = c1state1 ∧
    logHabit c1state1 "h1" 1 0 "n2" (.ok ()) = (.error (.domain domainErrMsg), c1state1) := by
  refine ⟨?_, by decide, ?_⟩
  · exact (spec_c1_daily_target_clamp c1state0 habitT3 "h1" 5 0 "n1" (.ok ())
      (by decide) (by decide) (by decide) (by decide)).2 (by decide) rfl
  · exact (spec_c1_daily_target_clamp c1state1 habitT3 "h1" 1 0 "n2" (.ok ())
      (by decide) (by decide) (by decide) (by decide)).1 (by decide)

end MyPlan

namespace MyPlan

/-- Replacing by an id absent from the list changes nothing. -/
theorem map_replace_of_not_mem (k : String) (x : Todo) :
    ∀ l : List Todo, k ∉ l.map Todo.id →
      l.map (fun t => if t.id == k then x else t) = l := by
  intro l
  induction l with
  | nil => intro _; rfl
  | cons t rest ih =>
    intro hmem
    have ht : ¬((t.id == k) = true) := by
      simp only [beq_iff_eq]
      intro hk; exact hmem (by simp [hk])
    have hrest : k ∉ rest.map Todo.id := by
      intro hk; exact hmem (by simp [hk])
    rw [List.map_cons, if_neg ht, ih hrest]

/-- Filtering out an id absent from the list changes nothing. -/
theorem filter_ne_of_not_mem (k : String) :
    ∀ l : List Todo, k ∉ l.map Todo.id →
      l.filter (fun t => t.id != k) = l := by
  intro l
  induction l with
  | nil => intro _; rfl
  | cons t rest ih =>
    intro hmem
    have ht : (t.id != k) = true := by
      simp only [bne_iff_ne, ne_eq]
      intro hk; exact hmem (by simp [hk])
    have hrest : k ∉ rest.map Todo.id := by
      intro hk; exact hmem (by simp [hk])
    rw [List.filter_cons, if_pos ht, ih hrest]

/-- Optimistically replacing the todo with a given id and then mapping
the found original back in restores the original list, provided ids
are unique. -/
theorem map_replace_rollback (k : String) (new old : Todo) (hnew : new.id = k) :
    ∀ l : List Todo, l.find? (fun t => t.id == k) = some old →
      (l.map Todo.id).Nodup →
      (l.map (fun t => if t.id == k then new else t)).map
        (fun t => if t.id == k then old else t) = l := by
  intro l
  induction l with
  | nil => intro hfind _; simp [List.find?] at hfind
  | cons t rest ih =>
    intro hfind hnodup
    have hnodup2 : t.id ∉ rest.map Todo.id ∧ (rest.map Todo.id).Nodup := by
      rw [List.map_cons] at hnodup
      exact List.nodup_cons.mp hnodup
    by_cases ht : t.id = k
    · have hbt : (t.id == k) = true := by simp [ht]
      have hbn : (new.id == k) = true := by simp [hnew]
      have hold : t = old := by
        have hh : (t :: rest).find? (fun t => t.id == k) = some t :=
          List.find?_cons_of_pos _ hbt
        rw [hh] at hfind
        exact Option.some.inj hfind
      have hrest : k ∉ rest.map Todo.id := ht ▸ hnodup2.1
      have h1 := map_replace_of_not_mem k new rest hrest
      have h2 := map_replace_of_not_mem k old rest hrest
      rw [List.map_cons, if_pos hbt, List.map_cons, if_pos hbn, h1, h2, hold]
    · have hbt : ¬((t.id == k) = true) := by simp [ht]
      have hfind' : rest.find? (fun t => t.id == k) = some old := by
        rw [List.find?_cons_of_neg _ (by simpa using hbt)] at hfind
        exact hfind
      rw [List.map_cons, if_neg hbt, List.map_cons, if_neg hbt,
        ih hfind' hnodup2.2]

end MyPlan

namespace MyPlan

/-- The id of the persisted update equals the requested id. -/
theorem updateTodoFinal_id (oldTodo u : Todo) (schedId : String) (futureOk : Bool) :
    (updateTodoFinal oldTodo u schedId futureOk).id = u.id := rfl

/-- The id of a toggled todo is unchanged. -/
theorem toggledTodo_id (todo : Todo) (isCompleted : Bool) (now : String) :
    (toggledTodo todo isCompleted now).id = todo.id := rfl

/-- C2 counterexample: a failing durable write under `logHabit`
re-throws the storage error, but the cache is left in the optimistic
(mutated) state instead of the claimed exact pre-mutation snapshot. -/
theorem spec_c2_counterexample :
    (logHabit ⟨[mkHabit "1"], [], []⟩ "1" 1 0 "n1" (.error diskErr)).1 =
        .error (.db diskErr) ∧
      (logHabit ⟨[mkHabit "1"], [], []⟩ "1" 1 0 "n1" (.error diskErr)).2 ≠
        ⟨[mkHabit "1"], [], []⟩ := by
  constructor
  · rfl
  · decide

/-- C2 amended, restricted to the habit log and todo mutations: each
of the seven re-throws a failing durable write's error unchanged; the
exact-snapshot rollback holds only for `addTodo` (given a fresh id),
`updateTodo` and `toggleTodo` (given unique cached ids), which restore
the exact pre-mutation list; `deleteTodo` restores by re-fetching the
durable list instead of the snapshot; and the habit log mutations
`logHabit`, `updateLog` and `deleteLog` apply optimistically with no
rollback at all: on failure their cache state equals the state of a
successful run.  No wider universal is claimed: the remaining
habit-store mutations do not follow the optimistic protocol
(`updateHabit` sets the cache only after its awaited write completes,
and `createHabit`, `archiveHabit` and `addCategory` persist first and
then refetch). -/
theorem spec_c2_rollback_scope
    (st : TodoStoreState) (hst : HabitStoreState) (e : DBError) :
    (∀ content dueDate reminderTime note relatedHabitId categories autoPostpone
        newId createdAt schedId, newId ∉ st.todos.map Todo.id →
      addTodo st content dueDate reminderTime note relatedHabitId categories
        autoPostpone newId createdAt schedId (.error e) = (.error (.db e), st)) ∧
    (∀ (u : Todo) schedId futureOk old,
      st.todos.find? (fun t => t.id == u.id) = some old →
      (st.todos.map Todo.id).Nodup →
      updateTodo st u schedId futureOk (.error e) = (.error (.db e), st)) ∧
    (∀ todoId isCompleted now old,
      st.todos.find? (fun t => t.id == todoId) = some old →
      (st.todos.map Todo.id).Nodup →
      toggleTodo st todoId isCompleted now (.error e) = (.error (.db e), st)) ∧
    (∀ todoId old refetched,
      st.todos.find? (fun t => t.id == todoId) = some old →
      deleteTodo st todoId (.error e) refetched = (.error (.db e), ⟨refetched⟩)) ∧
    (∀ habitId v day newId, currentTotalAt hst day < targetOf hst habitId →
      (logHabit hst habitId v day newId (.error e)).1 = .error (.db e) ∧
      (logHabit hst habitId v day newId (.error e)).2 =
        (logHabit hst habitId v day newId (.ok ())).2) ∧
    (∀ log, (updateLog hst log (.error e)).1 = .error (.db e) ∧
      (updateLog hst log (.error e)).2 = (updateLog hst log (.ok ())).2) ∧
    (∀ logId, (deleteLog hst logId (.error e)).1 = .error (.db e) ∧
      (deleteLog hst logId (.error e)).2 = (deleteLog hst logId (.ok ())).2) := by
  obtain ⟨ts⟩ := st
  refine ⟨?_, ?_, ?_, ?_, ?_, ?_, ?_⟩
  · intro content dueDate reminderTime note relatedHabitId categories autoPostpone
      newId createdAt schedId hfresh
    unfold addTodo
    simp only [Prod.mk.injEq, TodoStoreState.mk.injEq]
    refine ⟨trivial, ?_⟩
    rw [List.filter_cons]
    have hhead : ((⟨newId, content, false, dueDate, createdAt, reminderTime, note,
        relatedHabitId, none, categories,
        if strTruthy reminderTime then some schedId else none, none,
        autoPostpone⟩ : Todo).id != newId) = false := by simp
    rw [hhead]
    simp only [Bool.false_eq_true, if_false]
    exact filter_ne_of_not_mem newId ts hfresh
  · intro u schedId futureOk old hfind hnodup
    have hoid : old.id = u.id := by simpa using List.find?_some hfind
    unfold updateTodo
    rw [hfind]
    simp only [Prod.mk.injEq, TodoStoreState.mk.injEq, updateTodoFinal_id]
    refine ⟨trivial, ?_⟩
    rw [hoid]
    exact map_replace_rollback u.id _ old (updateTodoFinal_id old u schedId futureOk)
      ts hfind hnodup
  · intro todoId isCompleted now old hfind hnodup
    have hoid : old.id = todoId := by simpa using List.find?_some hfind
    unfold toggleTodo
    rw [hfind]
    simp only [Prod.mk.injEq, TodoStoreState.mk.injEq]
    refine ⟨trivial, ?_⟩
    exact map_replace_rollback todoId _ old
      ((toggledTodo_id old isCompleted now).trans hoid) ts hfind hnodup
  · intro todoId old refetched hfind
    unfold deleteTodo
    rw [hfind]
  · intro habitId v day newId hlt
    unfold logHabit
    simp only []
    rw [if_neg (not_le.mpr hlt), if_neg (not_le.mpr hlt)]
    exact ⟨rfl, rfl⟩
  · intro log
    unfold updateLog
    exact ⟨rfl, rfl⟩
  · intro logId
    unfold deleteLog
    exact ⟨rfl, rfl⟩

end MyPlan

namespace MyPlan

/-- Witness for C2 (amended): at a concrete store, a failed insert of
a fresh todo rolls the cache back to the exact prior state, while a
failed habit log write leaves the cache equal to the state of a
successful run. -/
theorem spec_c2_rollback_scope_witness :
    addTodo ⟨[]⟩ "task" none none none none none false "t1" "2025-01-01" ""
        (.error diskErr) = (.error (.db diskErr), ⟨[]⟩) ∧
      (logHabit ⟨[mkHabit "1"], [], []⟩ "1" 1 0 "n1" (.error diskErr)).2 =
        (logHabit ⟨[mkHabit "1"], [], []⟩ "1" 1 0 "n1" (.ok ())).2 := by
  constructor
  · exact (spec_c2_rollback_scope ⟨[]⟩ ⟨[mkHabit "1"], [], []⟩ diskErr).1
      "task" none none none none none false "t1" "2025-01-01" "" (by simp)
  · exact ((spec_c2_rollback_scope ⟨[]⟩ ⟨[mkHabit "1"], [], []⟩ diskErr).2.2.2.2.1
      "1" 1 0 "n1" (by decide)).2

end MyPlan

namespace MyPlan

/-- C10 amended: the `logHabit` domain rejection fires exactly when
the in-memory `currentHabitDailyTotals` entry for the log's date has
reached the habit's target — the decision reads no durable state (the
embedded operation takes none as input).  The map is shared and
habit-agnostic, so an unfetched habit observes whatever the last
`fetchHabitLogs` left there: only when the map holds no entry for the
date (as right after `clearCurrentHabitData`) is the observed total 0,
making the request accepted and clamped only at the full target,
whatever durable storage holds. -/
theorem spec_c10_guard_reads_only_cache
    (st : HabitStoreState) (habitId : String) (v day : ℤ) (newId : String) :
    (∀ dbW, logHabit st habitId v day newId dbW =
        (.error (.domain domainErrMsg), st) ↔
      currentTotalAt st day ≥ targetOf st habitId) ∧
    (lookupTotal st.currentHabitDailyTotals day = none →
      1 ≤ targetOf st habitId → habitId ≠ "" →
      (logHabit st habitId v day newId (.ok ())).1 = .ok () ∧
      (logHabit st habitId v day newId (.ok ())).2.currentHabitLogs =
        st.currentHabitLogs ++
          [⟨newId, habitId, day, min (jsOr v 1) (targetOf st habitId), none, none⟩]) ∧
    (∀ d : ℤ, lookupTotal (clearCurrentHabitData st).currentHabitDailyTotals d = none) := by
  refine ⟨?_, ?_, ?_⟩
  · intro dbW
    constructor
    · intro heq
      by_cases hc : currentTotalAt st day ≥ targetOf st habitId
      · exact hc
      · exfalso
        unfold logHabit at heq
        rw [if_neg hc] at heq
        cases dbW with
        | ok u => simp at heq
        | error e => simp at heq
    · intro hge
      unfold logHabit
      rw [if_pos hge]
  · intro hnone ht1 hid
    have hc : currentTotalAt st day = 0 := by simp [currentTotalAt, hnone]
    have hlt : ¬(currentTotalAt st day ≥ targetOf st habitId) := by
      rw [hc]; intro hcon; linarith
    unfold logHabit
    rw [if_neg hlt]
    refine ⟨rfl, ?_⟩
    have hmax : jsMax 0 (targetOf st habitId - currentTotalAt st day) =
        targetOf st habitId := by
      rw [hc, sub_zero, jsMax_eq]
      exact max_eq_right (by linarith)
    simp only [hmax, jsMin_eq, hid]
    simp [hid]
  · intro d
    simp [clearCurrentHabitData, lookupTotal, List.find?]

/-- Witness for C10: a target-3 habit whose logs were never fetched
(empty totals map): a request of value 5 with any durable contents is
accepted and clamped to the full target 3, and the domain rejection
does not fire. -/
theorem spec_c10_guard_reads_only_cache_witness :
    ((logHabit ⟨[habitT3], [], []⟩ "h1" 5 0 "n1" (.ok ())).1 = .ok () ∧
      (logHabit ⟨[habitT3], [], []⟩ "h1" 5 0 "n1" (.ok ())).2.currentHabitLogs =
        [] ++ [⟨"n1", "h1", 0, min (jsOr 5 1) (targetOf ⟨[habitT3], [], []⟩ "h1"),
          none, none⟩]) ∧
    ¬(logHabit ⟨[habitT3], [], []⟩ "h1" 5 0 "n1" (.ok ()) =
      (.error (.domain domainErrMsg), ⟨[habitT3], [], []⟩)) := by
  constructor
  · exact (spec_c10_guard_reads_only_cache ⟨[habitT3], [], []⟩ "h1" 5 0 "n1").2.1
      (by decide) (by decide) (by decide)
  · intro heq
    have := ((spec_c10_guard_reads_only_cache ⟨[habitT3], [], []⟩ "h1" 5 0 "n1").1
      (.ok ())).mp heq
    revert this
    decide

end MyPlan

namespace MyPlan

/-- C9: the widget's LOG_HABIT action always succeeds with a log of
value 1 appended for the tapped habit — it takes no target or total
into account, so against any daily target already reached, the day's
aggregate after the tap strictly exceeds the target (repeated taps
keep growing it by 1 with no domain error or clamping). -/
theorem spec_c9_widget_log_unconditional
    (logs : List HabitLog) (habitId : String) (day : ℤ) (newId : String) :
    widgetLogHabit logs habitId day newId =
      .ok (logs ++ [⟨newId, habitId, day, 1, none, none⟩]) ∧
    dayTotalInDB (logs ++ [⟨newId, habitId, day, 1, none, none⟩]) habitId day =
      dayTotalInDB logs habitId day + 1 ∧
    (∀ target : ℤ, dayTotalInDB logs habitId day ≥ target →
      dayTotalInDB (logs ++ [⟨newId, habitId, day, 1, none, none⟩]) habitId day >
        target) := by
  have hsum : dayTotalInDB (logs ++ [⟨newId, habitId, day, 1, none, none⟩]) habitId day =
      dayTotalInDB logs habitId day + 1 := by
    unfold dayTotalInDB
    rw [List.filter_append, List.map_append, List.sum_append]
    simp [jsOr]
  refine ⟨rfl, hsum, ?_⟩
  intro target hge
  rw [hsum]
  linarith

/-- Witness for C9: with a day total of 3 already at (and above) a
target of 3, a widget tap pushes the total to 4 with no error. -/
theorem spec_c9_widget_log_unconditional_witness :
    dayTotalInDB ([⟨"a", "h", 0, 3, none, none⟩] ++ [⟨"b", "h", 0, 1, none, none⟩])
        "h" 0 > 3 := by
  exact (spec_c9_widget_log_unconditional [⟨"a", "h", 0, 3, none, none⟩] "h" 0 "b").2.2
    3 (by decide)

end MyPlan

namespace MyPlan

/-- C7 counterexample: a recurring habit trigger fired 5 seconds after
its creation, exactly at its scheduled time-of-day (signed offset 0,
inside [-1, 5]), is nevertheless suppressed by the just-created guard,
contradicting the claimed characterisation of suppression purely by
the minute offset. -/
theorem spec_c7_counterexample :
    handleNotification ⟨some 95000, some "habit"⟩ (.calendar 10 0) 100000 10 0 =
        suppressDecision ∧
      ¬(((10 * 60 + 0 : ℤ) - (10 * 60 + 0) < -1) ∨
        ((10 * 60 + 0 : ℤ) - (10 * 60 + 0) > 5)) := by
  constructor
  · rfl
  · decide

/-- C7 amended: unless the just-created guard fires first (metadata
creation timestamp under 15 s old and type habit, which suppresses
unconditionally), an absolute-time trigger is suppressed iff its delay
exceeds 5 minutes, a recurring hour/minute trigger is suppressed iff
its signed minute offset is below -1 or above 5, and anything not
suppressed is displayed with alert and sound. -/
theorem spec_c7_delivery_filter
    (data : NotificationData) (trigger : TriggerInfo) (nowMs nowHour nowMinute : ℤ) :
    (justCreatedGuard data nowMs = true →
      handleNotification data trigger nowMs nowHour nowMinute = suppressDecision) ∧
    (justCreatedGuard data nowMs = false →
      (∀ v, trigger = .timestamp v →
        (handleNotification data trigger nowMs nowHour nowMinute = suppressDecision ↔
          nowMs - v > 5 * 60 * 1000) ∧
        (¬(nowMs - v > 5 * 60 * 1000) →
          handleNotification data trigger nowMs nowHour nowMinute = showDecision)) ∧
      (∀ h m, trigger = .calendar h m →
        (handleNotification data trigger nowMs nowHour nowMinute = suppressDecision ↔
          ((nowHour * 60 + nowMinute) - (h * 60 + m) < -1 ∨
            (nowHour * 60 + nowMinute) - (h * 60 + m) > 5)) ∧
        (¬((nowHour * 60 + nowMinute) - (h * 60 + m) < -1 ∨
            (nowHour * 60 + nowMinute) - (h * 60 + m) > 5) →
          handleNotification data trigger nowMs nowHour nowMinute = showDecision)) ∧
      (trigger = .other →
        handleNotification data trigger nowMs nowHour nowMinute = showDecision)) ∧
    showDecision.shouldShowAlert = true ∧ showDecision.shouldPlaySound = true := by
  have hne : showDecision ≠ suppressDecision := by decide
  refine ⟨?_, ?_, rfl, rfl⟩
  · intro hg
    unfold handleNotification
    rw [if_pos hg]
  · intro hg
    refine ⟨?_, ?_, ?_⟩
    · intro v hv
      subst hv
      unfold handleNotification
      rw [if_neg (by rw [hg]; exact Bool.false_ne_true)]
      simp only []
      constructor
      · constructor
        · intro heq
          by_contra hd
          rw [if_neg hd] at heq
          exact hne heq
        · intro hd
          rw [if_pos hd]
      · intro hd
        rw [if_neg hd]
    · intro h m hv
      subst hv
      unfold handleNotification
      rw [if_neg (by rw [hg]; exact Bool.false_ne_true)]
      simp only []
      constructor
      · constructor
        · intro heq
          by_cases h1 : (nowHour * 60 + nowMinute) - (h * 60 + m) < -1
          · exact Or.inl h1
          · by_cases h2 : (nowHour * 60 + nowMinute) - (h * 60 + m) > 5
            · exact Or.inr h2
            · rw [if_neg h1, if_neg h2] at heq
              exact absurd heq hne
        · intro hd
          rcases hd with h1 | h2
          · rw [if_pos h1]
          · by_cases h1 : (nowHour * 60 + nowMinute) - (h * 60 + m) < -1
            · rw [if_pos h1]
            · rw [if_neg h1, if_pos h2]
      · intro hd
        push_neg at hd
        rw [if_neg (not_lt.mpr hd.1), if_neg (not_lt.mpr hd.2)]
    · intro hv
      subst hv
      unfold handleNotification
      rw [if_neg (by rw [hg]; exact Bool.false_ne_true)]

/-- Witness for C7 (amended), the delivery-filter scenario of the
specification: an absolute trigger delivered 6 minutes late is
suppressed; delivered 4 minutes late it is shown with sound. -/
theorem spec_c7_delivery_filter_witness :
    handleNotification ⟨none, some "todo"⟩ (.timestamp 0) 360000 10 6 =
        suppressDecision ∧
      handleNotification ⟨none, some "todo"⟩ (.timestamp 0) 240000 10 4 =
        showDecision := by
  constructor
  · exact (((spec_c7_delivery_filter ⟨none, some "todo"⟩ (.timestamp 0)
      360000 10 6).2.1 (by decide)).1 0 rfl).1.mpr (by decide)
  · exact ((spec_c7_delivery_filter ⟨none, some "todo"⟩ (.timestamp 0)
      240000 10 4).2.1 (by decide)).1 0 rfl |>.2 (by decide)

end MyPlan

namespace MyPlan

/-- C8 counterexample: updating only the frequency (daily to specific
days) of a habit with a reminder and a stored notification id cancels
nothing, schedules nothing, and persists the habit still carrying the
old id — a stale id matched to the old frequency remains stored,
contradicting the claimed cancel-and-reschedule on frequency
changes. -/
theorem spec_c8_counterexample :
    (updateHabit [c8habit] c8changes false "" (fun _ => "fresh")).1 =
        [UpdEvent.persistHabit (applyChanges c8habit c8changes)] ∧
      (applyChanges c8habit c8changes).frequency = .specificDays ∧
      (applyChanges c8habit c8changes).notificationIds = some ["old1"] := by
  refine ⟨?_, by decide, by decide⟩
  decide

/-- C8 amended: the cancel-then-reschedule-then-persist sequence runs
exactly when the update carries a `reminderTime` different from the
stored one; in that case every previously stored id is cancelled
first, the fresh scheduling calls follow, the persisted id list is
exactly the truthy ids those calls returned, and only then is the
habit persisted.  An update that changes only `frequency` or
`frequencyDays` (reminder field absent or unchanged) cancels and
schedules nothing and persists the merged habit with the previous id
list untouched. -/
theorem spec_c8_reminder_rescheduling
    (habits : List Habit) (c : HabitChanges) (existing : Habit)
    (catchupFuture : Bool) (catchupId : String) (repId : ℕ → String)
    (hfind : habits.find? (fun h => h.id == c.id) = some existing) :
    (reminderChangeRequested c existing = true →
      ∃ calls : List String,
        (updateHabit habits c catchupFuture catchupId repId).1 =
          (existing.notificationIds.getD []).map UpdEvent.cancel ++
            calls.map UpdEvent.schedule ++
            [UpdEvent.persistHabit
              { applyChanges existing c with
                  notificationIds := some (calls.filter (fun i => i ≠ "")) }] ∧
        (strTruthy (applyChanges existing c).reminderTime = false → calls = [])) ∧
    (reminderChangeRequested c existing = false →
      (updateHabit habits c catchupFuture catchupId repId).1 =
        [UpdEvent.persistHabit (applyChanges existing c)] ∧
      (applyChanges existing c).notificationIds = existing.notificationIds) := by
  constructor
  · intro hreq
    unfold updateHabit
    rw [hfind]
    simp only [hreq, if_true]
    refine ⟨if strTruthy (applyChanges existing c).reminderTime then
      (if catchupFuture then [catchupId] else []) ++
        (match (applyChanges existing c).frequency with
         | .daily => [repId 0]
         | .specificDays =>
           match (applyChanges existing c).frequencyDays with
           | some ds => (List.range ds.length).map repId
           | none => []
         | .weekly => []) else [], rfl, ?_⟩
    intro hfalse
    rw [hfalse]
    simp
  · intro hreq
    unfold updateHabit
    rw [hfind]
    simp only [hreq, Bool.false_eq_true, if_false]
    refine ⟨trivial, ?_⟩
    unfold applyChanges
    rfl

/-- Witness for C8 (amended): a concrete reminder-time change on the
C8 habit cancels the stored id, schedules the daily reminder afresh,
and persists exactly the newly issued id; the concrete frequency-only
change leaves the old id stored. -/
theorem spec_c8_reminder_rescheduling_witness :
    (∃ calls : List String,
      (updateHabit [c8habit] ⟨"1", none, none, none, some (some "2025-01-01T10:00"),
          none, none⟩ false "" (fun _ => "fresh")).1 =
        (c8habit.notificationIds.getD []).map UpdEvent.cancel ++
          calls.map UpdEvent.schedule ++
          [UpdEvent.persistHabit
            { applyChanges c8habit ⟨"1", none, none, none, some (some "2025-01-01T10:00"),
                none, none⟩ with
                notificationIds := some (calls.filter (fun i => i ≠ "")) }] ∧
      (strTruthy (applyChanges c8habit ⟨"1", none, none, none,
          some (some "2025-01-01T10:00"), none, none⟩).reminderTime = false →
        calls = [])) ∧
    ((updateHabit [c8habit] c8changes false "" (fun _ => "fresh")).1 =
        [UpdEvent.persistHabit (applyChanges c8habit c8changes)] ∧
      (applyChanges c8habit c8changes).notificationIds = c8habit.notificationIds) := by
  constructor
  · exact (spec_c8_reminder_rescheduling [c8habit] _ c8habit false "" (fun _ => "fresh")
      (by decide)).1 (by decide)
  · exact (spec_c8_reminder_rescheduling [c8habit] c8changes c8habit false ""
      (fun _ => "fresh") (by decide)).2 (by decide)

end MyPlan

namespace MyPlan

/-- The best-streak fold equals the incoming best joined with the best
run value reachable over the remaining dates. -/
theorem bestStreakGo_eq_max {α : Type} (R : α → α → Bool) :
    ∀ (rest : List α) (prev : α) (temp best : ℕ),
      bestStreakGo R prev temp best rest = max best (bestAux R prev temp rest) := by
  intro rest
  induction rest with
  | nil => intro prev temp best; simp [bestStreakGo, bestAux]
  | cons d rest ih =>
    intro prev temp best
    simp only [bestStreakGo, bestAux]
    rw [ih]
    exact Nat.max_assoc best _ _

/-- Evaluation of the best-run helper in terms of the chain lengths:
either the incoming run continues over a nonempty chain prefix, or the
maximum is realised inside the remaining dates. -/
theorem bestAux_eq {α : Type} (R : α → α → Bool) :
    ∀ (rest : List α) (prev : α) (temp : ℕ),
      bestAux R prev temp rest =
        max (if chainContLen R prev rest = 0 then 0 else temp + chainContLen R prev rest)
          (bestSpec R rest) := by
  intro rest
  induction rest with
  | nil => intro prev temp; simp [bestAux, chainContLen, bestSpec]
  | cons d rest ih =>
    intro prev temp
    by_cases hR : R prev d = true
    · simp only [bestAux, chainContLen, bestSpec, chainPrefixLen, hR, if_true]
      rw [ih]
      rcases Nat.eq_zero_or_pos (chainContLen R d rest) with hcc | hcc
      · simp [hcc, Nat.max_def] <;> (first | omega | (split_ifs <;> omega))
      · have hne : chainContLen R d rest ≠ 0 := Nat.pos_iff_ne_zero.mp hcc
        have hne2 : 1 + chainContLen R d rest ≠ 0 := by omega
        simp [hne, hne2, Nat.max_def] <;> (first | omega | (split_ifs <;> omega))
    · have hR' : R prev d = false := Bool.eq_false_iff.mpr hR
      simp only [bestAux, chainContLen, bestSpec, chainPrefixLen, hR', Bool.false_eq_true,
        if_false]
      rw [ih]
      rcases Nat.eq_zero_or_pos (chainContLen R d rest) with hcc | hcc
      · simp [hcc, Nat.max_def] <;> (first | omega | (split_ifs <;> omega))
      · have hne : chainContLen R d rest ≠ 0 := Nat.pos_iff_ne_zero.mp hcc
        simp [hne, Nat.max_def] <;> (first | omega | (split_ifs <;> omega))

/-- The best-streak scan computes exactly the specification-side
longest run value. -/
theorem bestStreakOf_eq_bestSpec {α : Type} (R : α → α → Bool) :
    ∀ l : List α, bestStreakOf R l = bestSpec R l := by
  intro l
  cases l with
  | nil => rfl
  | cons d rest =>
    simp only [bestStreakOf, bestSpec, chainPrefixLen]
    rw [bestStreakGo_eq_max, bestAux_eq]
    rcases Nat.eq_zero_or_pos (chainContLen R d rest) with hcc | hcc
    · simp [hcc, Nat.max_def] <;> (first | omega | (split_ifs <;> omega))
    · have hne : chainContLen R d rest ≠ 0 := Nat.pos_iff_ne_zero.mp hcc
      simp [hne, Nat.max_def] <;> (first | omega | (split_ifs <;> omega))

end MyPlan

namespace MyPlan

/-- A chain continuing from `a` is no longer than the continuation
length of any extension of it. -/
theorem chainContLen_ge {α : Type} (R : α → α → Bool) :
    ∀ (m t : List α) (a : α), List.Chain (fun x y => R x y = true) a m →
      m.length ≤ chainContLen R a (m ++ t) := by
  intro m
  induction m with
  | nil => intro t a _; simp
  | cons b m ih =>
    intro t a hch
    rcases List.chain_cons.mp hch with ⟨hab, hbm⟩
    simp only [List.cons_append, chainContLen, hab, if_true, List.length_cons]
    have := ih t b hbm
    simp only [List.append_eq] at this ⊢
    omega

/-- A chain list is no longer than the chain prefix length of any
extension of it. -/
theorem chainPrefixLen_ge {α : Type} (R : α → α → Bool) :
    ∀ (m t : List α), m.Chain' (fun x y => R x y = true) →
      m.length ≤ chainPrefixLen R (m ++ t) := by
  intro m t hch
  cases m with
  | nil => simp
  | cons a m =>
    simp only [List.cons_append, chainPrefixLen, List.length_cons]
    have := chainContLen_ge R m t a hch
    omega

/-- The chain prefix length never exceeds the chain value of the whole
list in the suffix maximum. -/
theorem chainPrefixLen_le_bestSpec {α : Type} (R : α → α → Bool) :
    ∀ l : List α, chainPrefixLen R l ≤ bestSpec R l := by
  intro l
  cases l with
  | nil => simp [chainPrefixLen, bestSpec]
  | cons a rest => exact Nat.le_max_left _ _

/-- The suffix maximum only grows when the list is extended on the
left. -/
theorem bestSpec_suffix_le {α : Type} (R : α → α → Bool) :
    ∀ (pre s : List α), bestSpec R s ≤ bestSpec R (pre ++ s) := by
  intro pre
  induction pre with
  | nil => intro s; simp
  | cons a pre ih =>
    intro s
    calc bestSpec R s ≤ bestSpec R (pre ++ s) := ih s
    _ ≤ bestSpec R (a :: (pre ++ s)) := Nat.le_max_right _ _

/-- Any contiguous chain inside the list is bounded by the suffix
maximum. -/
theorem chain_infix_le_bestSpec {α : Type} (R : α → α → Bool)
    (s m t l : List α) (hdec : l = s ++ m ++ t)
    (hch : m.Chain' (fun x y => R x y = true)) :
    m.length ≤ bestSpec R l := by
  subst hdec
  calc m.length ≤ chainPrefixLen R (m ++ t) := chainPrefixLen_ge R m t hch
  _ ≤ bestSpec R (m ++ t) := chainPrefixLen_le_bestSpec R (m ++ t)
  _ ≤ bestSpec R (s ++ (m ++ t)) := bestSpec_suffix_le R s (m ++ t)
  _ = bestSpec R (s ++ m ++ t) := by rw [List.append_assoc]

/-- The continuation length is bounded by the list length. -/
theorem chainContLen_le_length {α : Type} (R : α → α → Bool) :
    ∀ (l : List α) (a : α), chainContLen R a l ≤ l.length := by
  intro l
  induction l with
  | nil => intro a; simp [chainContLen]
  | cons b rest ih =>
    intro a
    simp only [chainContLen, List.length_cons]
    split
    · have := ih b; omega
    · omega

/-- The taken chain prefix really is a chain continuing from `a`. -/
theorem chain_take_chainContLen {α : Type} (R : α → α → Bool) :
    ∀ (l : List α) (a : α),
      List.Chain (fun x y => R x y = true) a (l.take (chainContLen R a l)) := by
  intro l
  induction l with
  | nil => intro a; simp [chainContLen]
  | cons b rest ih =>
    intro a
    by_cases hab : R a b = true
    · simp only [chainContLen, hab, if_true]
      rw [Nat.add_comm 1 (chainContLen R b rest), List.take_succ_cons]
      exact List.Chain.cons hab (ih b)
    · have hab' : R a b = false := Bool.eq_false_iff.mpr hab
      simp only [chainContLen, hab', Bool.false_eq_true, if_false, List.take_zero]
      exact List.Chain.nil

/-- The suffix maximum is attained by a contiguous chain of the
list. -/
theorem bestSpec_attained {α : Type} (R : α → α → Bool) :
    ∀ l : List α, ∃ s m t : List α, l = s ++ m ++ t ∧
      m.Chain' (fun x y => R x y = true) ∧ m.length = bestSpec R l := by
  intro l
  induction l with
  | nil => exact ⟨[], [], [], rfl, trivial, rfl⟩
  | cons a rest ih =>
    rcases Nat.le_total (bestSpec R rest) (chainPrefixLen R (a :: rest)) with hle | hle
    · refine ⟨[], (a :: rest).take (chainPrefixLen R (a :: rest)),
        (a :: rest).drop (chainPrefixLen R (a :: rest)), ?_, ?_, ?_⟩
      · simp [List.take_append_drop]
      · have hcomm : chainPrefixLen R (a :: rest) = chainContLen R a rest + 1 := by
          simp [chainPrefixLen, Nat.add_comm]
        rw [hcomm, List.take_succ_cons]
        exact chain_take_chainContLen R rest a
      · rw [List.length_take]
        have h1 : chainPrefixLen R (a :: rest) ≤ (a :: rest).length := by
          simp only [chainPrefixLen, List.length_cons]
          have := chainContLen_le_length R rest a
          omega
        have h2 : bestSpec R (a :: rest) = chainPrefixLen R (a :: rest) :=
          Nat.le_antisymm (by simp only [bestSpec]; exact Nat.max_le.mpr ⟨Nat.le_refl _, hle⟩)
            (chainPrefixLen_le_bestSpec R (a :: rest))
      
        omega
    · rcases ih with ⟨s, m, t, hdec, hch, hlen⟩
      refine ⟨a :: s, m, t, by rw [hdec]; simp, hch, ?_⟩
      have h2 : bestSpec R (a :: rest) = bestSpec R rest :=
        Nat.le_antisymm (by simp only [bestSpec]; exact Nat.max_le.mpr ⟨hle, Nat.le_refl _⟩)
          (Nat.le_max_right _ _)
      rw [h2, hlen]

end MyPlan

namespace MyPlan

/-- Characterisation of continuity between two completed dates: for
`prev < curr`, the pair is continuous exactly when no day strictly
between them is scheduled. -/
theorem isStreakContinuous_iff (h : Habit) (prev curr : ℤ) (hlt : prev < curr) :
    isStreakContinuous h prev curr = true ↔
      ∀ d : ℤ, prev < d → d < curr → isScheduled h d = false := by
  unfold isStreakContinuous
  have hpos : ¬(curr - prev ≤ 0) := by omega
  rw [if_neg hpos]
  by_cases hone : curr - prev = 1
  · rw [if_pos hone]
    constructor
    · intro _ d hd1 hd2
      omega
    · intro _
      rfl
  · rw [if_neg hone]
    rw [List.all_eq_true]
    constructor
    · intro hall d hd1 hd2
      have hi : (curr - d).toNat ∈ List.range' 1 ((curr - prev).toNat - 1) := by
        rw [List.mem_range'_1]
        omega
      have := hall _ hi
      have hcast : ((curr - d).toNat : ℤ) = curr - d := Int.toNat_of_nonneg (by omega)
      rw [hcast] at this
      simp only [Bool.not_eq_eq_eq_not, Bool.not_true] at this
      have hd : curr - (curr - d) = d := by omega
      rw [hd] at this
      exact this
    · intro hall i hi
      rw [List.mem_range'_1] at hi
      have h1 : prev < curr - (i : ℤ) := by omega
      have h2 : curr - (i : ℤ) < curr := by omega
      have := hall _ h1 h2
      simp only [Bool.not_eq_eq_eq_not, Bool.not_true]
      exact this

/-- C5: for a daily or specific-days habit, two completed dates in
ascending order are continuous exactly when no scheduled day lies
strictly between them, and the computed best streak is exactly the
length of the longest contiguous run of pairwise-continuous completed
dates: some contiguous block of the ascending completed-date list is
such a run of that length, and every contiguous pairwise-continuous
block is no longer. -/
theorem spec_c5_best_streak (h : Habit) (logs : List HabitLog) (today : ℤ)
    (hf : h.frequency = .daily ∨ h.frequency = .specificDays) :
    (∀ prev curr : ℤ, prev < curr →
      (isStreakContinuous h prev curr = true ↔
        ∀ d : ℤ, prev < d → d < curr → isScheduled h d = false)) ∧
    (∃ s m t : List ℤ, completedDatesOf h logs = s ++ m ++ t ∧
      m.Chain' (fun a b => isStreakContinuous h a b = true) ∧
      m.length = (calculateHabitStats h logs today).bestStreak) ∧
    (∀ s m t : List ℤ, completedDatesOf h logs = s ++ m ++ t →
      m.Chain' (fun a b => isStreakContinuous h a b = true) →
      m.length ≤ (calculateHabitStats h logs today).bestStreak) := by
  have hbs : (calculateHabitStats h logs today).bestStreak =
      bestSpec (fun a b => isStreakContinuous h a b) (completedDatesOf h logs) := by
    unfold calculateHabitStats
    rw [if_pos (by rcases hf with hf | hf <;> simp [hf])]
    cases hl : completedDatesOf h logs with
    | nil => simp [bestSpec]
    | cons d rest =>
      simp only []
      rw [← bestStreakOf_eq_bestSpec]
      rfl
  refine ⟨fun prev curr hlt => isStreakContinuous_iff h prev curr hlt, ?_, ?_⟩
  · rcases bestSpec_attained (fun a b => isStreakContinuous h a b)
      (completedDatesOf h logs) with ⟨s, m, t, hdec, hch, hlen⟩
    exact ⟨s, m, t, hdec, hch, by rw [hbs, hlen]⟩
  · intro s m t hdec hch
    rw [hbs]
    exact chain_infix_le_bestSpec _ s m t _ hdec hch

/-- Witness for C5, the streak-continuity scenario of the
specification: for the Mon/Wed/Fri habit with completions on Monday,
Wednesday and Friday the best streak is 3 (the whole list is the
attained run), while with the Wednesday completion missing the best
streak is 1; the unscheduled Tuesday between Monday and Wednesday does
not break continuity (the theorem's characterisation applied at
prev = Monday, curr = Wednesday). -/
theorem spec_c5_best_streak_witness :
    (calculateHabitStats mwfHabit mwfLogs 5).bestStreak = 3 ∧
    (calculateHabitStats mwfHabit mwfLogsMissedWed 5).bestStreak = 1 ∧
    (isStreakContinuous mwfHabit 1 3 = true ↔
      ∀ d : ℤ, 1 < d → d < 3 → isScheduled mwfHabit d = false) ∧
    (∃ s m t : List ℤ, completedDatesOf mwfHabit mwfLogs = s ++ m ++ t ∧
      m.Chain' (fun a b => isStreakContinuous mwfHabit a b = true) ∧
      m.length = (calculateHabitStats mwfHabit mwfLogs 5).bestStreak) := by
  refine ⟨by decide, by decide, ?_, ?_⟩
  · exact (spec_c5_best_streak mwfHabit mwfLogs 5 (Or.inr rfl)).1 1 3 (by decide)
  · exact (spec_c5_best_streak mwfHabit mwfLogs 5 (Or.inr rfl)).2.1

end MyPlan

namespace MyPlan

/-- The backwards streak walk in terms of the flipped continuation
length. -/
theorem runEndGo_eq (h : Habit) :
    ∀ (rest : List ℤ) (c : ℤ), runEndGo h c rest =
      1 + chainContLen (fun a b => isStreakContinuous h b a) c rest := by
  intro rest
  induction rest with
  | nil => intro c; simp [runEndGo, chainContLen]
  | cons p rest ih =>
    intro c
    by_cases hc : isStreakContinuous h p c = true
    · simp only [runEndGo, chainContLen, hc, if_true, ih]
    · have hc' : isStreakContinuous h p c = false := Bool.eq_false_iff.mpr hc
      simp [runEndGo, chainContLen, hc']

/-- The current-streak length is the chain prefix length of the
reversed date list under the flipped continuity relation. -/
theorem runEndLen_eq (h : Habit) (l : List ℤ) :
    runEndLen h l =
      chainPrefixLen (fun a b => isStreakContinuous h b a) l.reverse := by
  unfold runEndLen
  cases hrev : l.reverse with
  | nil => simp [chainPrefixLen]
  | cons c rest => simp [chainPrefixLen, runEndGo_eq]

/-- The chain prefix length is bounded by the list length. -/
theorem chainPrefixLen_le_length {α : Type} (R : α → α → Bool) :
    ∀ l : List α, chainPrefixLen R l ≤ l.length := by
  intro l
  cases l with
  | nil => simp [chainPrefixLen]
  | cons a rest =>
    simp only [chainPrefixLen, List.length_cons]
    have := chainContLen_le_length R rest a
    omega

/-- The taken chain prefix is a chain. -/
theorem take_chainPrefixLen_chain' {α : Type} (R : α → α → Bool) :
    ∀ l : List α, (l.take (chainPrefixLen R l)).Chain' (fun x y => R x y = true) := by
  intro l
  cases l with
  | nil => simp [chainPrefixLen]
  | cons a rest =>
    have hcomm : chainPrefixLen R (a :: rest) = chainContLen R a rest + 1 := by
      simp [chainPrefixLen, Nat.add_comm]
    rw [hcomm, List.take_succ_cons]
    exact chain_take_chainContLen R rest a

/-- The `runEndGo` walk expressed from the last element of a nonempty
list. -/
theorem runEndLen_eq_go (h : Habit) (l : List ℤ) (hl : l ≠ []) :
    runEndLen h l = runEndGo h (l.getLast?.getD 0) l.reverse.tail := by
  unfold runEndLen
  cases hrev : l.reverse with
  | nil =>
    exact absurd (by simpa using congrArg List.reverse hrev) hl
  | cons c rest =>
    have hgl : l.getLast? = some c := by
      rw [← List.head?_reverse, hrev]
      rfl
    rw [hgl]
    simp [hrev]

/-- The streak walk always counts at least the last completed date. -/
theorem one_le_runEndGo (h : Habit) (c : ℤ) (rest : List ℤ) :
    1 ≤ runEndGo h c rest := by
  rw [runEndGo_eq]
  omega

/-- Every chain suffix of the date list is bounded by the backwards
streak walk. -/
theorem runEnd_max (h : Habit) (l : List ℤ) :
    ∀ pre s : List ℤ, l = pre ++ s →
      s.Chain' (fun a b => isStreakContinuous h a b = true) →
      s.length ≤ runEndLen h l := by
  intro pre s hdec hch
  have hch' : s.reverse.Chain' (fun x y => isStreakContinuous h y x = true) :=
    (List.chain'_reverse).mpr hch
  have hrev : l.reverse = s.reverse ++ pre.reverse := by
    rw [hdec, List.reverse_append]
  calc s.length = s.reverse.length := (List.length_reverse s).symm
  _ ≤ chainPrefixLen (fun a b => isStreakContinuous h b a) (s.reverse ++ pre.reverse) :=
      chainPrefixLen_ge _ s.reverse pre.reverse hch'
  _ = chainPrefixLen (fun a b => isStreakContinuous h b a) l.reverse := by rw [← hrev]
  _ = runEndLen h l := (runEndLen_eq h l).symm

/-- The backwards streak walk is attained by a chain suffix of the
date list. -/
theorem runEnd_exists (h : Habit) (l : List ℤ) (hl : l ≠ []) :
    ∃ pre s : List ℤ, l = pre ++ s ∧ s ≠ [] ∧
      s.Chain' (fun a b => isStreakContinuous h a b = true) ∧
      s.length = runEndLen h l := by
  set R := fun a b : ℤ => isStreakContinuous h b a with hR
  set p := chainPrefixLen R l.reverse with hp
  refine ⟨(l.reverse.drop p).reverse, (l.reverse.take p).reverse, ?_, ?_, ?_, ?_⟩
  · calc l = l.reverse.reverse := (List.reverse_reverse l).symm
    _ = (l.reverse.take p ++ l.reverse.drop p).reverse := by rw [List.take_append_drop]
    _ = (l.reverse.drop p).reverse ++ (l.reverse.take p).reverse := by
        rw [List.reverse_append]
  · have hlen : (l.reverse.take p).length = p := by
      rw [List.length_take]
      have := chainPrefixLen_le_length R l.reverse
      omega
    have hpos : 1 ≤ p := by
      rw [hp, ← runEndLen_eq, runEndLen_eq_go h l hl]
      exact one_le_runEndGo h _ _
    intro hemp
    rw [← List.length_eq_zero] at hemp
    rw [List.length_reverse, hlen] at hemp
    omega
  · exact (List.chain'_reverse).mpr (take_chainPrefixLen_chain' R l.reverse)
  · rw [List.length_reverse, List.length_take]
    have := chainPrefixLen_le_length R l.reverse
    rw [runEndLen_eq, ← hR, ← hp]
    omega

/-- Characterisation of streak liveness: true exactly when no
scheduled day lies strictly between the last completed date and
today. -/
theorem isStreakAlive_iff (h : Habit) (lastC today : ℤ) :
    isStreakAlive h lastC today = true ↔
      ∀ d : ℤ, lastC < d → d < today → isScheduled h d = false := by
  unfold isStreakAlive
  by_cases heq : lastC = today
  · rw [if_pos heq]
    constructor
    · intro _ d h1 h2
      omega
    · intro _
      rfl
  · rw [if_neg heq]
    have hdz : ¬(today - lastC = 0) := by omega
    rw [if_neg hdz]
    rw [List.all_eq_true]
    constructor
    · intro hall d h1 h2
      have hi : (today - d).toNat ∈ List.range' 1 ((today - lastC).toNat - 1) := by
        rw [List.mem_range'_1]
        omega
      have := hall _ hi
      have hcast : ((today - d).toNat : ℤ) = today - d := Int.toNat_of_nonneg (by omega)
      rw [hcast] at this
      simp only [Bool.not_eq_eq_eq_not, Bool.not_true] at this
      have hd : today - (today - d) = d := by omega
      rw [hd] at this
      exact this
    · intro hall i hi
      rw [List.mem_range'_1] at hi
      have h1 : lastC < today - (i : ℤ) := by omega
      have h2 : today - (i : ℤ) < today := by omega
      have := hall _ h1 h2
      simp only [Bool.not_eq_eq_eq_not, Bool.not_true]
      exact this

end MyPlan

namespace MyPlan

/-- The current streak the statistics engine reports: the backwards
walk from the most recent completed date, gated by liveness of the gap
to today. -/
theorem calc_currentStreak (h : Habit) (logs : List HabitLog) (today : ℤ)
    (hf : h.frequency = .daily ∨ h.frequency = .specificDays)
    (hne : completedDatesOf h logs ≠ []) :
    (calculateHabitStats h logs today).currentStreak =
      if isStreakAlive h ((completedDatesOf h logs).getLast?.getD 0) today
      then runEndLen h (completedDatesOf h logs) else 0 := by
  unfold calculateHabitStats
  rw [if_pos (by rcases hf with hf | hf <;> simp [hf])]
  cases hl : completedDatesOf h logs with
  | nil => exact absurd hl hne
  | cons d rest =>
    simp only []
    rw [runEndLen_eq_go h (d :: rest) (by simp)]

/-- C6: for a daily or specific-days habit with at least one completed
date, if no scheduled day strictly between the most recent completed
date and today was missed, the current streak is exactly the length of
the maximal pairwise-continuous run ending at that date (a nonempty
chain suffix of the ascending completed dates attains it and every
chain suffix is bounded by it); if some scheduled day in that gap was
missed, the current streak is 0.  A scheduled but not yet completed
today never makes the gap dead, as only days strictly before today are
examined. -/
theorem spec_c6_current_streak (h : Habit) (logs : List HabitLog) (today : ℤ)
    (hf : h.frequency = .daily ∨ h.frequency = .specificDays)
    (hne : completedDatesOf h logs ≠ []) :
    ((∀ d : ℤ, (completedDatesOf h logs).getLast?.getD 0 < d → d < today →
        isScheduled h d = false) →
      (∃ pre s : List ℤ, completedDatesOf h logs = pre ++ s ∧ s ≠ [] ∧
        s.Chain' (fun a b => isStreakContinuous h a b = true) ∧
        s.length = (calculateHabitStats h logs today).currentStreak) ∧
      (∀ pre s : List ℤ, completedDatesOf h logs = pre ++ s →
        s.Chain' (fun a b => isStreakContinuous h a b = true) →
        s.length ≤ (calculateHabitStats h logs today).currentStreak)) ∧
    ((∃ d : ℤ, (completedDatesOf h logs).getLast?.getD 0 < d ∧ d < today ∧
        isScheduled h d = true) →
      (calculateHabitStats h logs today).currentStreak = 0) := by
  have hcs := calc_currentStreak h logs today hf hne
  constructor
  · intro hno
    have halive : isStreakAlive h ((completedDatesOf h logs).getLast?.getD 0) today =
        true := (isStreakAlive_iff h _ today).mpr hno
    rw [hcs, if_pos halive]
    exact ⟨runEnd_exists h _ hne, runEnd_max h _⟩
  · rintro ⟨d, h1, h2, h3⟩
    have hnot : ¬(isStreakAlive h ((completedDatesOf h logs).getLast?.getD 0) today =
        true) := by
      intro hT
      have := (isStreakAlive_iff h _ today).mp hT d h1 h2
      rw [h3] at this
      exact Bool.true_eq_false.mp this
    rw [hcs, if_neg hnot]

/-- Witness for C6: the Mon/Wed/Fri habit completed on Monday,
Wednesday and Friday, viewed on the Saturday (day 6, unscheduled gap):
the current streak is 3 and a chain suffix of length 3 attains it;
viewed after a missed scheduled Monday (day 8, today day 9) the
current streak is 0. -/
theorem spec_c6_current_streak_witness :
    ((∃ pre s : List ℤ, completedDatesOf mwfHabit mwfLogs = pre ++ s ∧ s ≠ [] ∧
        s.Chain' (fun a b => isStreakContinuous mwfHabit a b = true) ∧
        s.length = (calculateHabitStats mwfHabit mwfLogs 6).currentStreak) ∧
      (∀ pre s : List ℤ, completedDatesOf mwfHabit mwfLogs = pre ++ s →
        s.Chain' (fun a b => isStreakContinuous mwfHabit a b = true) →
        s.length ≤ (calculateHabitStats mwfHabit mwfLogs 6).currentStreak)) ∧
    (calculateHabitStats mwfHabit mwfLogs 6).currentStreak = 3 ∧
    (calculateHabitStats mwfHabit mwfLogs 9).currentStreak = 0 := by
  refine ⟨?_, by decide, ?_⟩
  · exact (spec_c6_current_streak mwfHabit mwfLogs 6 (Or.inr rfl) (by decide)).1
      (by decide)
  · exact (spec_c6_current_streak mwfHabit mwfLogs 9 (Or.inr rfl) (by decide)).2
      ⟨8, by decide, by decide, by decide⟩

end MyPlan

namespace MyPlan

/-- C10 counterexample: the totals map is shared across habits, so a
habit whose logs were never fetched does not observe a current total
of 0 — after fetching habit A's logs (total 3 on day 0), logging the
unfetched habit B (target 1, no cached B log exists) on that day is
rejected with the domain error against A's total. -/
theorem spec_c10_counterexample :
    (c10stateAB.currentHabitLogs.all (fun l => l.habitId != "B")) = true ∧
      logHabit c10stateAB "B" 1 0 "n1" (.ok ()) =
        (.error (.domain domainErrMsg), c10stateAB) := by
  constructor
  · decide
  · rfl

end MyPlan
